import Mathlib

/-!
Verification of the OCR-result fusion and field-extraction engine of
`backend/ocr_service/app.py` (functions `normalize_text`,
`extract_receipt_data`, `extract_title_enhanced`, `extract_date_enhanced`,
`extract_amount_enhanced`).

Shallow embedding conventions:
* Python `str` is Lean `String`; character-level work is done on `List Char`.
* Python `float` is modelled as `ℚ` (the values that arise are decimal
  numbers with at most two fractional digits, confidences, and their sums;
  on these the comparisons the code performs agree with exact rational
  arithmetic).
* Each regular expression of the source is embedded as a dedicated matcher
  on `List Char`, transcribing the pattern with Python's leftmost-match,
  greedy-with-backtracking semantics (`pySearch` scans positions left to
  right; bounded quantifiers that interact with what follows are given
  their explicit backtracking alternatives).
* Python's stable `list.sort(key=k, reverse=True)` is modelled by pairing
  each element with its index and insertion-sorting by the total order
  "key descending, then index ascending", then dropping the indices.
* `try/except` around parsing is modelled with `Option`, the `except:
  continue` branches returning the unchanged accumulator.
-/

namespace OCRApp

/- The rational arithmetic of the embedding must evaluate inside `decide`
proofs; Batteries marks these operations irreducible for the elaborator
(the kernel unfolds them regardless), so they are made semireducible for
this file. -/
set_option allowUnsafeReducibility true
attribute [local semireducible] Rat.add Rat.sub Rat.mul Rat.div Rat.neg Rat.inv

set_option maxRecDepth 40000

/-! ## Python character and string primitives -/

/-- Python whitespace (`str.strip`, `str.split`, regex `\s`). -/
def pySpace (c : Char) : Bool :=
  c = ' ' || c = '\t' || c = '\n' || c = '\r' || c = '\x0b' || c = '\x0c'

/-- ASCII decimal digit (regex `\d`, `str.isdigit` on the ASCII range). -/
def asciiDigit (c : Char) : Bool :=
  '0' ≤ c && c ≤ '9'

def isAsciiUpper (c : Char) : Bool :=
  'A' ≤ c && c ≤ 'Z'

def isAsciiLower (c : Char) : Bool :=
  'a' ≤ c && c ≤ 'z'

/-- `str.lower()` (the texts in play are ASCII apart from currency symbols,
which lowercasing leaves unchanged). -/
def pyLower (s : List Char) : List Char :=
  s.map Char.toLower

/-- `str.strip()` on a character list. -/
def pyStripL (s : List Char) : List Char :=
  ((s.dropWhile pySpace).reverse.dropWhile pySpace).reverse

def strOf (l : List Char) : String := String.mk l

/-- `str.strip()`. -/
def pyStrip (s : String) : String := strOf (pyStripL s.toList)

/-- `str.isdigit()`: nonempty and all digits. -/
def pyIsDigitStr (s : List Char) : Bool :=
  !s.isEmpty && s.all asciiDigit

/-- Number of words of `str.split()`: maximal runs of non-whitespace.  The
Boolean records whether the previous character was inside a word. -/
def wordCountAux : Bool → List Char → Nat
  | _, [] => 0
  | inWord, c :: cs =>
    if pySpace c then wordCountAux false cs
    else (if inWord then 0 else 1) + wordCountAux true cs

def wordCount (s : String) : Nat := wordCountAux false s.toList

/-- Whether `pat` stands at the start of `s`. -/
def startsWithL : List Char → List Char → Bool
  | [], _ => true
  | _, [] => false
  | p :: ps, c :: cs => c = p && startsWithL ps cs

/-- `s1 in s2` for strings (also `re.search` of an alternation of plain
words, applied to each word separately). -/
def containsSub (pat : List Char) : List Char → Bool
  | [] => startsWithL pat []
  | l@(_ :: tail) => startsWithL pat l || containsSub pat tail

def containsAnySub (pats : List (List Char)) (s : List Char) : Bool :=
  pats.any (fun p => containsSub p s)

/-- Digit characters to a natural number (Python `int` on a digit string). -/
def digitsToNat (s : List Char) : Nat :=
  s.foldl (fun n c => n * 10 + (c.toNat - 48)) 0

/-- `str.zfill(2)`: pad on the left with zeros to length two. -/
def zfill2 (s : String) : String :=
  strOf (List.replicate (2 - s.length) '0' ++ s.toList)

/-- Python `float(...)` on a cleaned amount string (digits and dots), as an
exact rational; `none` models a raised `ValueError`. -/
def pyFloatQ (s : List Char) : Option ℚ :=
  let ip := s.takeWhile asciiDigit
  match s.drop ip.length with
  | [] => if ip.isEmpty then none else some ((digitsToNat ip : ℚ))
  | '.' :: fp =>
    if fp.all asciiDigit && !(ip.isEmpty && fp.isEmpty) then
      some ((digitsToNat ip : ℚ) + (digitsToNat fp : ℚ) / ((10 : ℚ) ^ fp.length))
    else none
  | _ => none

/-! ## Generic regex-search scaffolding -/

/-- `re.search`: try the at-position matcher at each position, left to
right, returning the first success. -/
def pySearch {γ : Type} (m : List Char → Option γ) : List Char → Option γ
  | [] => m []
  | l@(_ :: tail) =>
    match m l with
    | some g => some g
    | none => pySearch m tail

/-- `re.finditer` / `re.findall`: all non-overlapping matches, scanning left
to right and resuming after each match's end.  The fuel argument is bounded
by the string length plus one; every matcher used consumes at least one
character, so the fuel never runs out on the matchers of this file. -/
def finditerAux {γ : Type} (m : List Char → Option (γ × List Char)) :
    Nat → List Char → List γ
  | 0, _ => []
  | _ + 1, [] =>
    match m [] with
    | some (g, _) => [g]
    | none => []
  | fuel + 1, l@(_ :: tail) =>
    match m l with
    | some (g, r) => g :: finditerAux m fuel r
    | none => finditerAux m fuel tail

def pyFinditer {γ : Type} (m : List Char → Option (γ × List Char))
    (s : List Char) : List γ :=
  finditerAux m (s.length + 1) s

/-- Case-insensitive literal at the current position (`lit` given in
lowercase); returns the remainder. -/
def matchLitCI : List Char → List Char → Option (List Char)
  | [], s => some s
  | _, [] => none
  | p :: ps, c :: cs => if c.toLower = p then matchLitCI ps cs else none

/-- Case-insensitive literal, also returning the consumed original
characters (for captures that keep the source's case). -/
def matchLitCIcap : List Char → List Char → Option (List Char × List Char)
  | [], s => some ([], s)
  | _, [] => none
  | p :: ps, c :: cs =>
    if c.toLower = p then
      (matchLitCIcap ps cs).map (fun q => (c :: q.1, q.2))
    else none

/-- An alternation of case-insensitive literals, tried in order. -/
def matchAltCI (alts : List (List Char)) (s : List Char) : Option (List Char) :=
  alts.findSome? (fun a => matchLitCI a s)

def matchAltCIcap (alts : List (List Char)) (s : List Char) :
    Option (List Char × List Char) :=
  alts.findSome? (fun a => matchLitCIcap a s)

def startsWithAnyCI (alts : List (List Char)) (s : List Char) : Bool :=
  alts.any (fun a => (matchLitCI a s).isSome)

/-! ## The stable descending sort (`list.sort(key=..., reverse=True)`) -/

/-- Pair each element with its position. -/
def withIdx {α : Type} : Nat → List α → List (Nat × α)
  | _, [] => []
  | n, x :: xs => (n, x) :: withIdx (n + 1) xs

/-- The total order "key descending, index ascending" a stable descending
sort realises. -/
def keyDescRel {α : Type} (key : α → ℚ) (p q : Nat × α) : Prop :=
  key q.2 < key p.2 ∨ (key p.2 = key q.2 ∧ p.1 ≤ q.1)

instance {α : Type} (key : α → ℚ) : DecidableRel (keyDescRel key) := fun _ _ =>
  inferInstanceAs (Decidable (_ ∨ _))

instance {α : Type} (key : α → ℚ) : IsTotal (Nat × α) (keyDescRel key) where
  total p q := by
    rcases lt_trichotomy (key p.2) (key q.2) with h | h | h
    · exact Or.inr (Or.inl h)
    · rcases Nat.le_total p.1 q.1 with h' | h'
      · exact Or.inl (Or.inr ⟨h, h'⟩)
      · exact Or.inr (Or.inr ⟨h.symm, h'⟩)
    · exact Or.inl (Or.inl h)

instance {α : Type} (key : α → ℚ) : IsTrans (Nat × α) (keyDescRel key) where
  trans p q r hpq hqr := by
    rcases hpq with h1 | ⟨h1, h1'⟩ <;> rcases hqr with h2 | ⟨h2, h2'⟩
    · exact Or.inl (h2.trans h1)
    · exact Or.inl (h2 ▸ h1)
    · exact Or.inl (h1 ▸ h2)
    · exact Or.inr ⟨h1.trans h2, h1'.trans h2'⟩

/-- Python's `l.sort(key=key, reverse=True)`: stable, descending by key. -/
def pySortByKeyDesc {α : Type} (key : α → ℚ) (l : List α) : List α :=
  (List.insertionSort (keyDescRel key) (withIdx 0 l)).map Prod.snd

/-! ## Deduplication keeping the first occurrence -/

/-- The dedup loop of `extract_receipt_data`: walk the list, keep an entry
iff its key was not seen before. -/
def dedupBy {α : Type} (f : α → String) : List String → List α → List α
  | _, [] => []
  | seen, x :: xs =>
    if f x ∈ seen then dedupBy f seen xs
    else x :: dedupBy f (f x :: seen) xs

/-! ## Data model -/

/-- One OCR detection, as the dicts handed to `extract_receipt_data`
(`{"text": ..., "confidence": ..., "variant": ...}`). -/
structure Detection where
  text : String
  confidence : ℚ
  variant : String
deriving DecidableEq

/-- One entry of `normalized_results` / `deduplicated_results`. -/
structure NormEntry where
  text : String
  normalized_text : String
  confidence : ℚ
  variant : String
deriving DecidableEq

/-- One entry of `amount_candidates`. -/
structure AmountCandidate where
  amount : ℚ
  currency : String
  text : String
  confidence : ℚ
deriving DecidableEq

/-- The dict `{"value": ..., "currency": ...}` returned by
`extract_amount_enhanced`. -/
structure AmountValue where
  value : ℚ
  currency : String
deriving DecidableEq

/-- The record returned by `extract_receipt_data`. -/
structure ReceiptRecord where
  title : String
  date : String
  amount : ℚ
  currency : String
  raw_text : List String
deriving DecidableEq

/-! ## `normalize_text` -/

/-- `re.sub(r'\s+', ' ', text)`: each maximal whitespace run becomes one
space.  The Boolean records whether the previous character was whitespace. -/
def collapseWsAux : Bool → List Char → List Char
  | _, [] => []
  | prevSpace, c :: cs =>
    if pySpace c then
      (if prevSpace then [] else [' ']) ++ collapseWsAux true cs
    else c :: collapseWsAux false cs

def collapseWs (s : List Char) : List Char := collapseWsAux false s

def isWordChar (c : Char) : Bool :=
  asciiDigit c || isAsciiUpper c || isAsciiLower c || c = '_'

/-- The allow-list of the third `re.sub` of `normalize_text`: word
characters (the ASCII reading of `\w`), whitespace, `: ; . , - /` and the
currency symbols `$ € £ ¥ ₹ %` survive; everything else is removed. -/
def normAllowed (c : Char) : Bool :=
  isWordChar c || pySpace c || c = ':' || c = ';' || c = '.' || c = ',' ||
    c = '-' || c = '/' || c = '$' || c = '€' || c = '£' || c = '¥' ||
    c = '₹' || c = '%'

/-- `normalize_text`: lowercase, collapse whitespace runs, drop characters
outside the allow-list, strip. -/
def normalize_text (s : String) : String :=
  strOf (pyStripL ((collapseWs (pyLower s.toList)).filter normAllowed))

/-! ## The amount extractor's pattern matchers -/

/-- The symbol class `[₹$€£¥]` (written `[$€£¥₹]` in two patterns — the
same set). -/
def isCurSym (c : Char) : Bool :=
  c = '₹' || c = '$' || c = '€' || c = '£' || c = '¥'

/-- The separator class `[:\s.-]` (also written `[:.\s-]`). -/
def isSepPunct (c : Char) : Bool :=
  c = ':' || pySpace c || c = '.' || c = '-'

/-- The date-separator class `[/.-]`. -/
def isDateSep (c : Char) : Bool :=
  c = '/' || c = '.' || c = '-'

def toL (s : String) : List Char := s.toList

/-- The label alternation `(?:amount|total|sum|price|cost|fee)`. -/
def moneyLabels : List (List Char) :=
  [toL "amount", toL "total", toL "sum", toL "price", toL "cost", toL "fee"]

/-- The keyword alternation `amount|total|sum|price` of the small-value
filter. -/
def kw4 : List (List Char) :=
  [toL "amount", toL "total", toL "sum", toL "price"]

/-- `\d+(?:[.,]\d{1,2})?` at the current position: greedy digits, then an
optional separator with one or two fraction digits (two when available).
Returns (captured characters, remainder). -/
def matchNum (s : List Char) : Option (List Char × List Char) :=
  let ds := s.takeWhile asciiDigit
  if ds.isEmpty then none
  else
    match s.drop ds.length with
    | c :: cs =>
      if c = '.' || c = ',' then
        let fs := cs.takeWhile asciiDigit
        if fs.isEmpty then some (ds, c :: cs)
        else
          let f2 := fs.take 2
          some (ds ++ c :: f2, cs.drop f2.length)
      else some (ds, c :: cs)
    | [] => some (ds, [])

/-- `(\d+)(?:[.,](\d{2}))?` at the current position: the two groups (the
fraction group needs exactly two digits) and the remainder. -/
def matchNumBare (s : List Char) :
    Option ((List Char × Option (List Char)) × List Char) :=
  let ds := s.takeWhile asciiDigit
  if ds.isEmpty then none
  else
    match s.drop ds.length with
    | c :: cs =>
      if c = '.' || c = ',' then
        match cs with
        | a :: b :: rest2 =>
          if asciiDigit a && asciiDigit b then some ((ds, some [a, b]), rest2)
          else some ((ds, none), c :: cs)
        | _ => some ((ds, none), c :: cs)
      else some ((ds, none), c :: cs)
    | [] => some ((ds, none), [])

/-- `[Rr][Ss]\.?|[Rr]upees?\.?` at the current position, capturing the
original characters. -/
def matchRsWord (s : List Char) : Option (List Char × List Char) :=
  match s with
  | c1 :: c2 :: rest =>
    if (c1 = 'R' || c1 = 'r') && (c2 = 'S' || c2 = 's') then
      match rest with
      | '.' :: rest2 => some ([c1, c2, '.'], rest2)
      | _ => some ([c1, c2], rest)
    else
      match matchLitCIcap (toL "rupee") s with
      | some (cap, r1) =>
        let (cap2, r2) :=
          match r1 with
          | c :: cs => if c.toLower = 's' then (cap ++ [c], cs) else (cap, r1)
          | [] => (cap, r1)
        match r2 with
        | '.' :: cs => some (cap2 ++ ['.'], cs)
        | _ => some (cap2, r2)
      | none => none
  | _ =>
    match matchLitCIcap (toL "rupee") s with
    | some (cap, r1) => some (cap, r1)
    | none => none

/-- The group-list-and-remainder type every amount pattern matcher
produces (groups in order; `none` = an unmatched optional group). -/
abbrev AmpMatch := Option (List (Option String) × List Char)

/-- `(?:amount|total|sum|price|cost|fee)[:\s.-]*([₹$€£¥])\s*(\d+(?:[.,]\d{1,2})?)` -/
def ampP1 (s : List Char) : AmpMatch := do
  let r0 ← matchAltCI moneyLabels s
  let r1 := r0.dropWhile isSepPunct
  match r1 with
  | c :: cs =>
    if isCurSym c then do
      let (num, r3) ← matchNum (cs.dropWhile pySpace)
      some ([some (strOf [c]), some (strOf num)], r3)
    else none
  | [] => none

/-- `(?:amount|total|sum|price|cost|fee)[:\s.-]*(\d+(?:[.,]\d{1,2})?)\s*([₹$€£¥])` -/
def ampP2 (s : List Char) : AmpMatch := do
  let r0 ← matchAltCI moneyLabels s
  let (num, r2) ← matchNum (r0.dropWhile isSepPunct)
  match r2.dropWhile pySpace with
  | c :: cs =>
    if isCurSym c then some ([some (strOf num), some (strOf [c])], cs) else none
  | [] => none

/-- `(?:amount|total|sum|price|cost|fee)[:\s.-]*([Rr][Ss]\.?|[Rr]upees?\.?)\s*(\d+(?:[.,]\d{1,2})?)` -/
def ampP3 (s : List Char) : AmpMatch := do
  let r0 ← matchAltCI moneyLabels s
  let (rs, r2) ← matchRsWord (r0.dropWhile isSepPunct)
  let (num, r3) ← matchNum (r2.dropWhile pySpace)
  some ([some (strOf rs), some (strOf num)], r3)

/-- `(?:amount|total|sum|price|cost|fee)[:\s.-]*[Ss]\s*(\d+(?:[.,]\d{1,2})?)` -/
def ampP4 (s : List Char) : AmpMatch := do
  let r0 ← matchAltCI moneyLabels s
  match r0.dropWhile isSepPunct with
  | c :: cs =>
    if c = 'S' || c = 's' then do
      let (num, r3) ← matchNum (cs.dropWhile pySpace)
      some ([some (strOf num)], r3)
    else none
  | [] => none

/-- `[Ss]\s*(\d+(?:[.,]\d{1,2})?)` -/
def ampP5 (s : List Char) : AmpMatch :=
  match s with
  | c :: cs =>
    if c = 'S' || c = 's' then do
      let (num, r3) ← matchNum (cs.dropWhile pySpace)
      some ([some (strOf num)], r3)
    else none
  | [] => none

/-- `amount[^0-9]*(\d+)`, `total[^0-9]*(\d+)`, `sum[^0-9]*(\d+)` -/
def ampLabelNum (w : List Char) (s : List Char) : AmpMatch := do
  let r0 ← matchLitCI w s
  let r1 := r0.dropWhile (fun c => !asciiDigit c)
  let ds := r1.takeWhile asciiDigit
  if ds.isEmpty then none
  else some ([some (strOf ds)], r1.drop ds.length)

/-- `(?:amount|total|sum|price|cost|fee)[:\s.-]*(\d+(?:[.,]\d{1,2})?)` -/
def ampP9 (s : List Char) : AmpMatch := do
  let r0 ← matchAltCI moneyLabels s
  let (num, r2) ← matchNum (r0.dropWhile isSepPunct)
  some ([some (strOf num)], r2)

/-- `([₹$€£¥])\s*(\d+(?:[.,]\d{1,2})?)` -/
def ampP10 (s : List Char) : AmpMatch :=
  match s with
  | c :: cs =>
    if isCurSym c then do
      let (num, r3) ← matchNum (cs.dropWhile pySpace)
      some ([some (strOf [c]), some (strOf num)], r3)
    else none
  | [] => none

/-- `(\d+(?:[.,]\d{1,2})?)\s*([₹$€£¥])` -/
def ampP11 (s : List Char) : AmpMatch := do
  let (num, r1) ← matchNum s
  match r1.dropWhile pySpace with
  | c :: cs =>
    if isCurSym c then some ([some (strOf num), some (strOf [c])], cs) else none
  | [] => none

/-- `([Rr][Ss]\.?|[Rr]upees?\.?)\s*(\d+(?:[.,]\d{1,2})?)` -/
def ampP12 (s : List Char) : AmpMatch := do
  let (rs, r1) ← matchRsWord s
  let (num, r3) ← matchNum (r1.dropWhile pySpace)
  some ([some (strOf rs), some (strOf num)], r3)

/-- `(\d+)(?:[.,](\d{2}))?` -/
def ampP13 (s : List Char) : AmpMatch := do
  let ((ds, fr), r) ← matchNumBare s
  some ([some (strOf ds), fr.map strOf], r)

/-- The `currency_patterns` table: (matcher, base score), in source order. -/
def currencyPatterns : List ((List Char → AmpMatch) × ℚ) :=
  [(ampP1, 9/10), (ampP2, 9/10), (ampP3, 9/10),
   (ampP4, 95/100), (ampP5, 8/10),
   (ampLabelNum (toL "amount"), 9/10), (ampLabelNum (toL "total"), 9/10),
   (ampLabelNum (toL "sum"), 9/10),
   (ampP9, 8/10),
   (ampP10, 7/10), (ampP11, 7/10), (ampP12, 7/10),
   (ampP13, 5/10)]

/-! ## `extract_amount_enhanced` -/

/-- `currency_map`. -/
def currency_map : List (String × String) :=
  [("$", "USD"), ("€", "EUR"), ("£", "GBP"), ("¥", "JPY"), ("₹", "INR"),
   ("rs", "INR"), ("rupees", "INR")]

/-- An optional colon (`:?`) at the current position. -/
def optColon (s : List Char) : List Char :=
  match s with
  | ':' :: cs => cs
  | _ => s

/-- The common tail `\s*s\s*(\d+)` of the OCR-confusion patterns:
whitespace, the letter s, whitespace, at least one digit (captured). -/
def sThenDigits (u : List Char) : Option (List Char) :=
  match u.dropWhile pySpace with
  | c :: cs =>
    if c = 's' then
      let ds := (cs.dropWhile pySpace).takeWhile asciiDigit
      if ds.isEmpty then none else some ds
    else none
  | [] => none

/-- `amount\s*:?\s*s\s*(\d+)` at the current position (the lowered text is
passed in, so the literals match directly); also embeds the uncaptured
variant `amount\s*:?\s*s\s*\d+` (same matching behaviour) via `Option.isSome`. -/
def amountSAt (s : List Char) : Option (List Char) := do
  let r0 ← matchLitCI (toL "amount") s
  sThenDigits (optColon (r0.dropWhile pySpace))

/-- `re.search(r'amount\s*:?\s*s\s*(\d+)', text.lower())`. -/
def amountSCapture (tl : List Char) : Option (List Char) :=
  pySearch amountSAt tl

def amountSBool (tl : List Char) : Bool :=
  (amountSCapture tl).isSome

/-- `re.search(r'amount\s*:?\s*s', text.lower())` (the currency-resolution
check: no digits required). -/
def amountSLeadAt (s : List Char) : Option Unit := do
  let r0 ← matchLitCI (toL "amount") s
  let r1 := r0.dropWhile pySpace
  let r2 := match r1 with
    | ':' :: cs => cs
    | _ => r1
  match r2.dropWhile pySpace with
  | c :: _ => if c = 's' then some () else none
  | [] => none

def amountSLeadBool (tl : List Char) : Bool :=
  (pySearch amountSLeadAt tl).isSome

/-- `re.search(r'^s\s*\d+', text.lower())`. -/
def sNumStartBool (tl : List Char) : Bool :=
  match tl with
  | c :: cs =>
    c = 's' && !((cs.dropWhile pySpace).takeWhile asciiDigit).isEmpty
  | [] => false

/-- `re.match(r'[Rr][Ss]\.?|[Rr]upees?', currency_indicator)` as a Boolean
(a prefix test; the optional dot and s cannot make it fail). -/
def rsLeadBool (s : List Char) : Bool :=
  match s with
  | c1 :: c2 :: rest =>
    ((c1 = 'R' || c1 = 'r') && (c2 = 'S' || c2 = 's')) ||
      ((c1 = 'R' || c1 = 'r') && startsWithL (toL "upee") (c2 :: rest))
  | _ => false

/-- Lines 755-768 of the source: split the match's groups into the amount
string and the currency indicator.  `none` covers both the
`re.match(r'\d', None)` `TypeError` (caught by the surrounding `except`)
and a falsy `amount_str`. -/
def splitAmtCur (gs : List (Option String)) : Option (String × Option String) :=
  if gs.length ≥ 2 then
    match gs with
    | g0 :: g1 :: _ =>
      match g0 with
      | none => none
      | some a =>
        if (match a.toList with | c :: _ => asciiDigit c | [] => false) then
          some (a, match g1 with | some b => if b = "" then none else some b | none => none)
        else
          match g1 with
          | some b => some (b, if a = "" then none else some a)
          | none => none
    | _ => none
  else
    match gs with
    | [some a] => some (a, none)
    | _ => none

/-- `amount_str.replace(',', '.')` then `re.sub(r'[^0-9.]', '', ...)`. -/
def cleanAmountStr (s : List Char) : List Char :=
  (s.map (fun c => if c = ',' then '.' else c)).filter
    (fun c => asciiDigit c || c = '.')

/-- Lines 787-800: resolve the currency code for one match. -/
def resolveCurrency (tl : List Char) (ind : Option String) : String :=
  if amountSLeadBool tl || sNumStartBool tl then "USD"
  else
    match ind with
    | none => "UNKNOWN"
    | some i =>
      let il := strOf (pyLower i.toList)
      match currency_map.find? (fun p => p.1 = il) with
      | some p => p.2
      | none => if rsLeadBool i.toList then "INR" else "UNKNOWN"

/-- Lines 813-831: the duplicate check.  The first candidate whose amount is
within 0.01 of the new one absorbs it — only its confidence and text are
overwritten, and only when the new confidence is strictly higher; otherwise
the new candidate is appended at the end. -/
def mergeCandidate : List AmountCandidate → AmountCandidate → List AmountCandidate
  | [], nc => [nc]
  | c :: rest, nc =>
    if |c.amount - nc.amount| < 1/100 then
      (if nc.confidence > c.confidence
       then { c with confidence := nc.confidence, text := nc.text }
       else c) :: rest
    else c :: mergeCandidate rest nc

/-- Lines 747-831: handle one regex match of the standard extraction loop
(`t` the stripped line, `tl` its lowercase). -/
def processMatch (t : String) (tl : List Char) (score : ℚ)
    (gs : List (Option String)) (cands : List AmountCandidate) :
    List AmountCandidate :=
  match splitAmtCur gs with
  | none => cands
  | some (amountStr, curInd) =>
    if amountStr = "" then cands
    else
      match pyFloatQ (cleanAmountStr amountStr.toList) with
      | none => cands
      | some v =>
        if 1900 ≤ v ∧ v ≤ 2100 ∧ v.den = 1 then cands
        else if v < 1 ∧ ¬containsAnySub kw4 tl then cands
        else
          let cur := resolveCurrency tl curInd
          let conf := score
            + (if containsSub (toL "total") tl then 1/10 else 0)
            + (if containsSub (toL "amount") tl then 1/10 else 0)
            + (if containsSub (toL "price") tl then 1/10 else 0)
          mergeCandidate cands ⟨v, cur, t, conf⟩

/-- One line of the `Amount: S92` first check (lines 719-739). -/
def firstCheckStep (cands : List AmountCandidate) (e : NormEntry) :
    List AmountCandidate :=
  let t := pyStrip e.text
  let tl := pyLower t.toList
  if amountSBool tl then
    match amountSCapture tl with
    | some ds =>
      match pyFloatQ ds with
      | some v => cands ++ [⟨v, "USD", t, 95/100⟩]
      | none => cands
    | none => cands
  else cands

/-- Lines 718-739: the `Amount: S92` first check, appending a 0.95-score USD
candidate for every line matching `amount\s*:?\s*s\s*\d+`. -/
def firstCheckCandidates (l : List NormEntry) : List AmountCandidate :=
  l.foldl firstCheckStep []

/-- One pattern of the standard loop: process every match of the pattern
in the line. -/
def processPattern (t : String) (tl : List Char) (cands : List AmountCandidate)
    (pm : (List Char → AmpMatch) × ℚ) : List AmountCandidate :=
  (pyFinditer pm.1 t.toList).foldl (fun cs gs => processMatch t tl pm.2 gs cs) cands

/-- One line of the standard loop: every pattern of the table in order. -/
def processEntry (cands : List AmountCandidate) (e : NormEntry) :
    List AmountCandidate :=
  let t := pyStrip e.text
  currencyPatterns.foldl (processPattern t (pyLower t.toList)) cands

/-- Lines 741-834: the standard extraction loop over every line, every
pattern and every match, starting from the already-accumulated candidates. -/
def standardCandidates (init : List AmountCandidate) (l : List NormEntry) :
    List AmountCandidate :=
  l.foldl processEntry init

def amountCandidates (l : List NormEntry) : List AmountCandidate :=
  standardCandidates (firstCheckCandidates l) l

/-- `extract_amount_enhanced`. -/
def extract_amount_enhanced (l : List NormEntry) : AmountValue :=
  match amountCandidates l with
  | cands@(_ :: _) =>
    let sorted := pySortByKeyDesc (fun c => c.confidence) cands
    match sorted.find? (fun c =>
        containsSub (toL "total") (pyLower c.text.toList) &&
        decide (c.confidence ≥ 7/10)) with
    | some c => ⟨c.amount, c.currency⟩
    | none =>
      match sorted.find? (fun c =>
          containsSub (toL "amount") (pyLower c.text.toList) &&
          decide (c.confidence ≥ 7/10)) with
      | some c => ⟨c.amount, c.currency⟩
      | none =>
        match sorted with
        | c :: _ => ⟨c.amount, c.currency⟩
        | [] => ⟨0, "UNKNOWN"⟩
  | [] =>
    match l.findSome? (fun e =>
      let t := pyStripL (pyLower e.text.toList)
      if pyIsDigitStr t then
        match pyFloatQ t with
        | some v =>
          if 0 < v ∧ v < 10000 then some (AmountValue.mk v "UNKNOWN") else none
        | none => none
      else none) with
    | some r => r
    | none => ⟨0, "UNKNOWN"⟩

/-! ## `extract_title_enhanced` -/

/-- The label alternation `(?:title|merchant|store|vendor|name)`. -/
def titleLabels : List (List Char) :=
  [toL "title", toL "merchant", toL "store", toL "vendor", toL "name"]

/-- Regex backtracking of `[:.\s-]+` before `(.+)` when the greedy
separator run reaches the end of the string: give separator characters
back, longest first, until `.+` can start on a non-newline character.
The argument is the candidate separator count. -/
def backtrackSepsAux (seps : List Char) : Nat → Option String
  | 0 => none
  | j + 1 =>
    match seps.drop (j + 1) with
    | c :: _ =>
      if c = '\n' then backtrackSepsAux seps j
      else some (strOf ((seps.drop (j + 1)).takeWhile (fun x => x ≠ '\n')))
    | [] => backtrackSepsAux seps j

/-- `(?:title|merchant|store|vendor|name)[:.\s-]+(.+)` at the current
position. -/
def titleLabelAt (s : List Char) : Option String :=
  match matchAltCI titleLabels s with
  | none => none
  | some r0 =>
    let seps := r0.takeWhile isSepPunct
    if seps.isEmpty then none
    else
      match r0.drop seps.length with
      | rest@(_ :: _) => some (strOf (rest.takeWhile (fun c => c ≠ '\n')))
      | [] => backtrackSepsAux seps (seps.length - 1)

/-- `^((?!date|amount|total|invoice|receipt).{3,30})$` (searched, but the
anchors confine it to position zero; `$` also matches before a final
newline). -/
def titlePat2 (s : List Char) : Option String :=
  if startsWithAnyCI
      [toL "date", toL "amount", toL "total", toL "invoice", toL "receipt"] s
  then none
  else
    let core := if s.getLast? = some '\n' then s.dropLast else s
    if core.all (fun c => c ≠ '\n') && 3 ≤ core.length && core.length ≤ 30 then
      some (strOf core)
    else none

/-- `[A-Z][a-z]+` at the current position. -/
def matchCapWord (s : List Char) : Option (List Char × List Char) :=
  match s with
  | c :: cs =>
    if isAsciiUpper c then
      let ls := cs.takeWhile isAsciiLower
      if ls.isEmpty then none else some (c :: ls, cs.drop ls.length)
    else none
  | [] => none

/-- Greedy `(?: <word>){0,fuel}` (single-space separator) for a given word
matcher; returns the number of repetitions taken and the remainder. -/
def extraWordsSpace1 (w : List Char → Option (List Char × List Char)) :
    Nat → List Char → Nat × List Char
  | 0, s => (0, s)
  | fuel + 1, s =>
    match s with
    | ' ' :: cs =>
      match w cs with
      | some (_, r) =>
        let (n, r2) := extraWordsSpace1 w fuel r
        (n + 1, r2)
      | none => (0, s)
    | _ => (0, s)

/-- Greedy `(?:\s+[A-Z][a-z]+){0,fuel}`. -/
def extraWordsWs : Nat → List Char → Nat × List Char
  | 0, s => (0, s)
  | fuel + 1, s =>
    let sp := s.takeWhile pySpace
    if sp.isEmpty then (0, s)
    else
      match matchCapWord (s.drop sp.length) with
      | some (_, r) =>
        let (n, r2) := extraWordsWs fuel r
        (n + 1, r2)
      | none => (0, s)

def isAsciiLetter (c : Char) : Bool :=
  isAsciiUpper c || isAsciiLower c

/-- `[A-Z][a-z]+` at the current position under `re.IGNORECASE`, where both
character classes match every ASCII letter of either case. -/
def matchCapWordCI (s : List Char) : Option (List Char × List Char) :=
  match s with
  | c :: cs =>
    if isAsciiLetter c then
      let ls := cs.takeWhile isAsciiLetter
      if ls.isEmpty then none else some (c :: ls, cs.drop ls.length)
    else none
  | [] => none

/-- `^([A-Z][a-z]+(?: [A-Z][a-z]+){1,3})$`, searched with `re.IGNORECASE`
like all three title patterns (so the classes match both cases); `$` also
matches before a final newline. -/
def titlePat3 (s : List Char) : Option String :=
  match matchCapWordCI s with
  | some (_, r) =>
    let (n, r2) := extraWordsSpace1 matchCapWordCI 3 r
    if 1 ≤ n && r2.isEmpty then some (strOf s)
    else if 1 ≤ n && r2 = ['\n'] then some (strOf s.dropLast)
    else none
  | none => none

/-- `re.match(r'^[A-Z][a-z]+(?:\s+[A-Z][a-z]+){0,3}$', text)`. -/
def properNoun04 (s : List Char) : Bool :=
  match matchCapWord s with
  | some (_, r) => (extraWordsWs 3 r).2.isEmpty
  | none => false

/-- `re.sub(r'^(title|merchant|store|name)\s*[:.-]?\s*', '', extracted_title,
flags=re.IGNORECASE)`. -/
def stripTitleLabel (s : String) : String :=
  match matchAltCI [toL "title", toL "merchant", toL "store", toL "name"] s.toList with
  | some r0 =>
    let r1 := r0.dropWhile pySpace
    let r2 := match r1 with
      | c :: cs => if c = ':' || c = '.' || c = '-' then cs else r1
      | [] => r1
    strOf (r2.dropWhile pySpace)
  | none => s

/-- Lines 440-457: one line of the first pass.  The three `title_patterns`
are tried in order; a match whose cleaned text is a single word shorter
than four characters is rejected and the next pattern tried (`continue`
continues the inner loop). -/
def tryTitlePattern (pat : Option String) : Option String :=
  match pat with
  | some g =>
    let cleaned := stripTitleLabel (pyStrip g)
    if wordCount cleaned = 1 && decide (cleaned.length < 4) then none
    else some cleaned
  | none => none

def firstPassEntry (t : List Char) : Option String :=
  match tryTitlePattern (pySearch titleLabelAt t) with
  | some r => some r
  | none =>
    match tryTitlePattern (titlePat2 t) with
    | some r => some r
    | none => tryTitlePattern (titlePat3 t)

def firstPassTitle (l : List NormEntry) : Option String :=
  l.findSome? (fun e => firstPassEntry (pyStrip e.text).toList)

/-- One entry of `merchant_name_candidates`: `(text, score, type)`. -/
structure MerchCand where
  text : String
  score : ℚ
  kind : String
deriving DecidableEq

def structuralKws : List (List Char) :=
  [toL "date", toL "amount", toL "total", toL "invoice", toL "receipt",
   toL "bill", toL "tax", toL "payment", toL "customer"]

def businessKws : List (List Char) :=
  [toL "llc", toL "inc", toL "corp", toL "shop", toL "store",
   toL "restaurant", toL "cafe", toL "hotel"]

/-- Case-insensitive `re.search` of an alternation of plain words. -/
def containsAnyCI (pats : List (List Char)) (s : List Char) : Bool :=
  containsAnySub pats (pyLower s)

/-- `re.search(r'\d{1,2}[/.-]\d{1,2}', text)` as a Boolean. -/
def dateLikeAt : List Char → Option Unit
  | a :: b :: c :: d :: _ =>
    if asciiDigit a && asciiDigit b && isDateSep c && asciiDigit d then some ()
    else if asciiDigit a && isDateSep b && asciiDigit c then some ()
    else none
  | [a, b, c] =>
    if asciiDigit a && isDateSep b && asciiDigit c then some () else none
  | _ => none

def dateLikeBool (s : List Char) : Bool :=
  (pySearch dateLikeAt s).isSome

/-- `re.search(r'[$€£¥₹]\s*\d+', text)` as a Boolean. -/
def moneyLikeAt : List Char → Option Unit
  | c :: cs =>
    if isCurSym c then
      if ((cs.dropWhile pySpace).takeWhile asciiDigit).isEmpty then none
      else some ()
    else none
  | [] => none

def moneyLikeBool (s : List Char) : Bool :=
  (pySearch moneyLikeAt s).isSome

/-- Lines 460-486: the second pass collecting `merchant_name_candidates`. -/
def merchantCandidates (l : List NormEntry) : List MerchCand :=
  l.foldl (fun cands e =>
    let t := pyStrip e.text
    if t.length < 3 then cands
    else if containsAnyCI structuralKws t.toList then cands
    else if properNoun04 t.toList then cands ++ [⟨t, 8/10, "proper name"⟩]
    else if containsAnyCI businessKws t.toList then cands ++ [⟨t, 7/10, "business name"⟩]
    else if cands.isEmpty && !dateLikeBool t.toList && !moneyLikeBool t.toList then
      cands ++ [⟨t, 5/10, "first line"⟩]
    else cands) []

/-- Lines 495-500: the fallback pass — the first line of length at least
three that is not purely numeric. -/
def lastResortTitle (l : List NormEntry) : Option String :=
  l.findSome? (fun e =>
    let t := pyStrip e.text
    if 3 ≤ t.length && !pyIsDigitStr t.toList then some t else none)

/-- `extract_title_enhanced`. -/
def extract_title_enhanced (l : List NormEntry) : String :=
  match firstPassTitle l with
  | some t => t
  | none =>
    match pySortByKeyDesc (fun c => c.score) (merchantCandidates l) with
    | c :: _ => c.text
    | [] =>
      match lastResortTitle l with
      | some t => t
      | none => "Untitled Receipt"

/-! ## `extract_date_enhanced` -/

/-- `\d{1,2}[/.-]` with the continuation: two digits when the third
character is a separator, else one digit (the two cases are mutually
exclusive, so this is the full backtracking behaviour). -/
def take12ThenSep {β : Type} (s : List Char)
    (k : List Char → List Char → Option β) : Option β :=
  match s with
  | a :: b :: c :: rest =>
    if asciiDigit a && asciiDigit b && isDateSep c then k [a, b] rest
    else if asciiDigit a && isDateSep b then k [a] (c :: rest)
    else none
  | [a, b] => if asciiDigit a && isDateSep b then k [a] [] else none
  | _ => none

/-- `\d{1,2}` with full backtracking into the continuation. -/
def take12Then {β : Type} (s : List Char)
    (k : List Char → List Char → Option β) : Option β :=
  match s with
  | a :: b :: rest =>
    if asciiDigit a && asciiDigit b then
      match k [a, b] rest with
      | some r => some r
      | none => if asciiDigit a then k [a] (b :: rest) else none
    else if asciiDigit a then k [a] (b :: rest)
    else none
  | [a] => if asciiDigit a then k [a] [] else none
  | [] => none

/-- `(20\d{2})`. -/
def matchYear20 : List Char → Option (String × List Char)
  | '2' :: '0' :: a :: b :: rest =>
    if asciiDigit a && asciiDigit b then some (strOf ['2', '0', a, b], rest)
    else none
  | _ => none

/-- `(\d{1,2})[/.-](\d{1,2})[/.-](20\d{2})` at the current position, with
the remainder (for `findall`). -/
def d1At (s : List Char) : Option ((String × String × String) × List Char) :=
  take12ThenSep s (fun g1 r1 =>
    take12ThenSep r1 (fun g2 r2 =>
      (matchYear20 r2).map (fun p => ((strOf g1, strOf g2, p.1), p.2))))

def findallD1 (s : List Char) : List (String × String × String) :=
  pyFinditer d1At s

def searchD1 (s : List Char) : Option (String × String × String) :=
  pySearch (fun t => (d1At t).map Prod.fst) s

/-- `(\d{2})[/.-]` (exactly two digits). -/
def take2ThenSep {β : Type} (s : List Char)
    (k : List Char → List Char → Option β) : Option β :=
  match s with
  | a :: b :: c :: rest =>
    if asciiDigit a && asciiDigit b && isDateSep c then k [a, b] rest else none
  | _ => none

/-- `(\d{1})[/.-]`. -/
def take1ThenSep {β : Type} (s : List Char)
    (k : List Char → List Char → Option β) : Option β :=
  match s with
  | a :: b :: rest =>
    if asciiDigit a && isDateSep b then k [a] rest else none
  | _ => none

/-- `(\d{4})` exactly. -/
def take4Digits : List Char → Option (List Char × List Char)
  | a :: b :: c :: d :: rest =>
    if asciiDigit a && asciiDigit b && asciiDigit c && asciiDigit d then
      some ([a, b, c, d], rest)
    else none
  | _ => none

/-- `(\d{2})` exactly, in final position. -/
def take2Digits : List Char → Option (List Char × List Char)
  | a :: b :: rest =>
    if asciiDigit a && asciiDigit b then some ([a, b], rest) else none
  | _ => none

/-- `(\d{2,4})` in final position: greedy up to four digits, at least two. -/
def take24Digits (s : List Char) : Option (List Char × List Char) :=
  let ds := s.takeWhile asciiDigit
  if ds.length < 2 then none
  else
    let g := ds.take 4
    some (g, s.drop g.length)

/-- `(\d{1,2})` in final position: greedy up to two digits. -/
def take12Final (s : List Char) : Option (List Char × List Char) :=
  let ds := s.takeWhile asciiDigit
  if ds.isEmpty then none
  else
    let g := ds.take 2
    some (g, s.drop g.length)

def monthAlts : List (List Char) :=
  [toL "jan", toL "feb", toL "mar", toL "apr", toL "may", toL "jun",
   toL "jul", toL "aug", toL "sep", toL "oct", toL "nov", toL "dec"]

/-- `month_map`, in dict insertion order. -/
def month_map : List (String × String) :=
  [("jan", "01"), ("feb", "02"), ("mar", "03"), ("apr", "04"), ("may", "05"),
   ("jun", "06"), ("jul", "07"), ("aug", "08"), ("sep", "09"), ("oct", "10"),
   ("nov", "11"), ("dec", "12")]

/-- `[a-z]*` under `re.IGNORECASE`: any ASCII letters. -/
def dropLetters (s : List Char) : List Char :=
  s.dropWhile (fun c => isAsciiLower c || isAsciiUpper c)

/-- `[\s,]*`. -/
def dropSpaceComma (s : List Char) : List Char :=
  s.dropWhile (fun c => pySpace c || c = ',')

/-- Pattern 1 of `date_patterns`:
`(\d{1,2})[/.-](\d{1,2})[/.-](20\d{2})`, searched; groups only. -/
def dp1 (s : List Char) : Option (List String) :=
  (d1At s).map (fun p => [p.1.1, p.1.2.1, p.1.2.2])

/-- `(\d{2})[/.-](\d{1,2})[/.-](\d{4})` -/
def dp2 (s : List Char) : Option (List String) :=
  take2ThenSep s (fun g1 r1 =>
    take12ThenSep r1 (fun g2 r2 =>
      (take4Digits r2).map (fun p => [strOf g1, strOf g2, strOf p.1])))

/-- `(\d{1})[/.-](\d{1,2})[/.-](\d{4})` -/
def dp3 (s : List Char) : Option (List String) :=
  take1ThenSep s (fun g1 r1 =>
    take12ThenSep r1 (fun g2 r2 =>
      (take4Digits r2).map (fun p => [strOf g1, strOf g2, strOf p.1])))

/-- `(?:date|dt)[:.\s-]+(\d{1,2})[/.-](\d{1,2})[/.-](\d{2,4})` -/
def dp4 (s : List Char) : Option (List String) := do
  let r0 ← matchAltCI [toL "date", toL "dt"] s
  let seps := r0.takeWhile isSepPunct
  if seps.isEmpty then none
  else
    take12ThenSep (r0.drop seps.length) (fun g1 r1 =>
      take12ThenSep r1 (fun g2 r2 =>
        (take24Digits r2).map (fun p => [strOf g1, strOf g2, strOf p.1])))

/-- `(?:date|dt)[:.\s-]+(\d{1,2}[\s]*(?:jan|...|dec)[a-z]*[\s,]*\d{2,4})`
(one group; its match has no effect in the handler, which only acts on
two- and three-group patterns). -/
def dp5 (s : List Char) : Option (List String) := do
  let r0 ← matchAltCI [toL "date", toL "dt"] s
  let seps := r0.takeWhile isSepPunct
  if seps.isEmpty then none
  else
    take12Then (r0.drop seps.length) (fun d r1 => do
      let r2 := r1.dropWhile pySpace
      let (mcap, r3) ← matchAltCIcap monthAlts r2
      let letters := r3.takeWhile (fun c => isAsciiLower c || isAsciiUpper c)
      let r4 := r3.drop letters.length
      let sc := r4.takeWhile (fun c => pySpace c || c = ',')
      let (y, _) ← take24Digits (r4.drop sc.length)
      some [strOf (d ++ r1.take (r1.length - r2.length) ++ mcap ++ letters ++ sc ++ y)])

/-- `(\d{1,2})[/.-](\d{1,2})[/.-](\d{2})` -/
def dp6 (s : List Char) : Option (List String) :=
  take12ThenSep s (fun g1 r1 =>
    take12ThenSep r1 (fun g2 r2 =>
      (take2Digits r2).map (fun p => [strOf g1, strOf g2, strOf p.1])))

/-- `(\d{4})[/.-](\d{1,2})[/.-](\d{1,2})` -/
def dp7 (s : List Char) : Option (List String) := do
  let (y, r1) ← take4Digits s
  match r1 with
  | c :: cs =>
    if isDateSep c then
      take12ThenSep cs (fun g2 r2 =>
        (take12Final r2).map (fun p => [strOf y, strOf g2, strOf p.1]))
    else none
  | [] => none

/-- `(\d{1,2})[\s]*(?:jan|...|dec)[a-z]*[\s,]*(\d{2,4})` -/
def dp8 (s : List Char) : Option (List String) :=
  take12Then s (fun d r1 => do
    let r2 := r1.dropWhile pySpace
    let r3 ← matchAltCI monthAlts r2
    let r4 := dropLetters r3
    let (y, _) ← take24Digits (dropSpaceComma r4)
    some [strOf d, strOf y])

/-- `(?:jan|...|dec)[a-z]*[\s]*(\d{1,2})[\s,]*(\d{2,4})` -/
def dp9 (s : List Char) : Option (List String) := do
  let r0 ← matchAltCI monthAlts s
  let r1 := (dropLetters r0).dropWhile pySpace
  take12Then r1 (fun d r2 => do
    let (y, _) ← take24Digits (dropSpaceComma r2)
    some [strOf d, strOf y])

/-- The `date_patterns` table (matcher as an at-position function to be
searched, score), in source order. -/
def datePatterns : List ((List Char → Option (List String)) × ℚ) :=
  [(dp1, 95/100), (dp2, 95/100), (dp3, 95/100),
   (dp4, 9/10), (dp5, 85/100),
   (dp6, 8/10), (dp7, 85/100),
   (dp8, 8/10), (dp9, 8/10)]

/-- Two-digit year expansion, lines 635-636 and 653-654:
`'20'+year if int(year) < 50 else '19'+year`. -/
def expandYear (y : String) : String :=
  if y.length = 2 then
    (if digitsToNat y.toList < 50 then "20" ++ y else "19" ++ y)
  else y

/-- Lines 543-564: the first check — lines containing "date", first
`findall` match, returned only when day > 12 (and ≤ 31). -/
def dateLoop1 (l : List NormEntry) : Option String :=
  l.findSome? (fun e =>
    let t := pyStrip e.text
    if containsSub (toL "date") (pyLower t.toList) then
      match findallD1 t.toList with
      | (d, m, y) :: _ =>
        if 12 < digitsToNat d.toList && digitsToNat d.toList ≤ 31 then
          some (zfill2 m ++ "/" ++ zfill2 d ++ "/" ++ y)
        else none
      | [] => none
    else none)

/-- Lines 579-587: format one direct match of loop 2. -/
def directDateFormat (d m y : String) : String :=
  if 12 < digitsToNat d.toList && digitsToNat d.toList ≤ 31 &&
      digitsToNat m.toList ≤ 12 then
    zfill2 m ++ "/" ++ zfill2 d ++ "/" ++ y
  else
    zfill2 d ++ "/" ++ zfill2 m ++ "/" ++ y

/-- Lines 566-589: the direct pattern match on every line (both branches
return, so the first matching line decides). -/
def dateLoop2 (l : List NormEntry) : Option String :=
  l.findSome? (fun e =>
    match searchD1 (pyStrip e.text).toList with
    | some (d, m, y) => some (directDateFormat d m y)
    | none => none)

/-- Lines 622-659: the handler of one `date_patterns` match. -/
def dateHandler3 (t : String) (groups : List String) : Option String :=
  match groups with
  | [p1, p2, p3] =>
    let a := digitsToNat p1.toList
    let b := digitsToNat p2.toList
    let md := if 12 < a && a ≤ 31 && b ≤ 12 then (p2, p1) else (p1, p2)
    some (zfill2 md.1 ++ "/" ++ zfill2 md.2 ++ "/" ++ expandYear p3)
  | [g0, g1] =>
    match month_map.find? (fun ab =>
        containsSub ab.1.toList (pyLower t.toList)) with
    | some ab =>
      let day := if (match g0.toList with
          | c :: _ => asciiDigit c
          | [] => false) then g0 else g1
      let year0 := if 2 ≤ g1.length then g1 else g0
      some (ab.2 ++ "/" ++ zfill2 day ++ "/" ++ expandYear year0)
    | none => none
  | _ => none

/-- Lines 610-662: the pattern-table pass. -/
def dateLoop3 (l : List NormEntry) : Option String :=
  l.findSome? (fun e =>
    let t := pyStrip e.text
    datePatterns.findSome? (fun pm =>
      match pySearch pm.1 t.toList with
      | some groups => dateHandler3 t groups
      | none => none))

/-- Lines 591-608: the force check (unconditional European reading). -/
def dateLoop4 (l : List NormEntry) : Option String :=
  l.findSome? (fun e =>
    match searchD1 (pyStrip e.text).toList with
    | some (d, m, y) => some (zfill2 m ++ "/" ++ zfill2 d ++ "/" ++ y)
    | none => none)

/-- Lines 664-678: the final fallback over all collected direct matches. -/
def dateLoop5 (l : List NormEntry) : Option String :=
  match l.foldl (fun acc e => acc ++ findallD1 (pyStrip e.text).toList) [] with
  | (d, m, y) :: _ => some (zfill2 m ++ "/" ++ zfill2 d ++ "/" ++ y)
  | [] => none

/-- `extract_date_enhanced`.  The source's loop 4 (lines 591-608) runs
between loops 2 and 3 in the file; it is kept in its source position here. -/
def extract_date_enhanced (l : List NormEntry) : String :=
  match dateLoop1 l with
  | some r => r
  | none =>
    match dateLoop2 l with
    | some r => r
    | none =>
      match dateLoop4 l with
      | some r => r
      | none =>
        match dateLoop3 l with
        | some r => r
        | none =>
          match dateLoop5 l with
          | some r => r
          | none => ""

/-! ## `extract_receipt_data` -/

/-- Lines 375-392: strip, drop blank and too-short texts, attach the
normalized text. -/
def buildNormalized (l : List Detection) : List NormEntry :=
  l.filterMap (fun d =>
    let t := pyStrip d.text
    if t = "" then none
    else if t.length < 2 then none
    else some ⟨t, normalize_text t, d.confidence, d.variant⟩)

/-- Line 395: `normalized_results.sort(key=lambda x: x["confidence"],
reverse=True)`. -/
def rankedEntries (l : List Detection) : List NormEntry :=
  pySortByKeyDesc (fun e => e.confidence) (buildNormalized l)

/-- Lines 397-405: keep the first occurrence of each exact text. -/
def dedupEntries (l : List NormEntry) : List NormEntry :=
  dedupBy (fun e => e.text) [] l

/-- `extract_receipt_data`. -/
def extract_receipt_data (l : List Detection) : ReceiptRecord :=
  let dedup := dedupEntries (rankedEntries l)
  let amountData := extract_amount_enhanced dedup
  { title := extract_title_enhanced dedup
    date := extract_date_enhanced dedup
    amount := amountData.value
    currency := amountData.currency
    raw_text := dedup.map (fun e => e.text) }

/-! ## Claims -/

def detectionsC1 : List Detection :=
  [⟨"Total: $33.71", 9/10, "v1"⟩, ⟨"Date: 03/15/2024", 85/100, "v1"⟩,
   ⟨"DOMINO'S PIZZA", 95/100, "v1"⟩]

/-- Claim C1: for the detection list [("Total: $33.71", 0.9),
("Date: 03/15/2024", 0.85), ("DOMINO'S PIZZA", 0.95)], extraction returns
the record with title "DOMINO'S PIZZA", date "03/15/2024", amount 33.71
and currency "USD". -/
theorem claim_C1 :
    (extract_receipt_data detectionsC1).title = "DOMINO'S PIZZA" ∧
    (extract_receipt_data detectionsC1).date = "03/15/2024" ∧
    (extract_receipt_data detectionsC1).amount = 3371/100 ∧
    (extract_receipt_data detectionsC1).currency = "USD" := by
  decide

/-- Claim C2 counterexample: for the unlabeled line "13/14/2024" the
triple is (a, b, year) = (13, 14, 2024) with a > 12 and a ≤ 31, so the
claimed rule demands b as month and a as day, i.e. "14/13/2024"; the code
returns "13/14/2024" because its unlabeled branch additionally requires
b ≤ 12 for the swap. -/
theorem claim_C2_counterexample :
    extract_date_enhanced [⟨"13/14/2024", "", 9/10, "v"⟩] = "13/14/2024" ∧
    extract_date_enhanced [⟨"13/14/2024", "", 9/10, "v"⟩] ≠ "14/13/2024" := by
  decide

/-- The first element of `re.finditer`, when there is one, is what
`re.search` of the same pattern finds: both scan positions left to right
and keep the leftmost success. -/
theorem finditerAux_head {γ : Type} (m : List Char → Option (γ × List Char)) :
    ∀ (s : List Char) (fuel : Nat), s.length ≤ fuel →
      (finditerAux m (fuel + 1) s).head? =
        pySearch (fun t => (m t).map Prod.fst) s := by
  intro s
  induction s with
  | nil =>
    intro fuel _
    simp only [finditerAux, pySearch]
    cases m [] with
    | some p =>
      obtain ⟨g, r⟩ := p
      rfl
    | none => rfl
  | cons c cs ih =>
    intro fuel hf
    rw [List.length_cons] at hf
    cases fuel with
    | zero => exact absurd hf (by omega)
    | succ fuel =>
      simp only [finditerAux, pySearch]
      cases hm : m (c :: cs) with
      | some p =>
        obtain ⟨g, r⟩ := p
        rfl
      | none =>
        exact ih fuel (by omega)

theorem findallD1_head (tl : List Char) (g : String × String × String)
    (rest : List (String × String × String))
    (h : findallD1 tl = g :: rest) : searchD1 tl = some g := by
  have h2 := finditerAux_head d1At tl tl.length (le_refl _)
  unfold findallD1 pyFinditer at h
  unfold searchD1
  rw [← h2, h]
  rfl

/-- Claim C2 amended: for every line whose date pattern
`(\d{1,2})[/.-](\d{1,2})[/.-](20\d{2})` yields the first numeric triple
(d, m, y): on a line containing "date" (the labeled first check), if
d > 12 and d ≤ 31 the returned date has m (zero-filled) as month and d as
day — even when m > 12; otherwise the labeled check returns nothing, the
direct loop re-matches the same first triple and, its swap condition
failing with d ≤ 12 or d > 31, returns d as month and m as day.  On a
line without "date" the direct loop swaps exactly when d > 12, d ≤ 31
and m ≤ 12, and otherwise returns d as month and m as day.  The four
concrete instances make the difference to the claimed label-independent
rule observable for every confidence and variant. -/
theorem claim_C2_amended :
    (∀ (e : NormEntry) (d m y : String)
      (rest : List (String × String × String)),
      containsSub (toL "date") (pyLower (pyStrip e.text).toList) = true →
      findallD1 (pyStrip e.text).toList = (d, m, y) :: rest →
      (12 < digitsToNat d.toList ∧ digitsToNat d.toList ≤ 31 →
        extract_date_enhanced [e] = zfill2 m ++ "/" ++ zfill2 d ++ "/" ++ y) ∧
      (¬(12 < digitsToNat d.toList ∧ digitsToNat d.toList ≤ 31) →
        extract_date_enhanced [e] = zfill2 d ++ "/" ++ zfill2 m ++ "/" ++ y)) ∧
    (∀ (e : NormEntry) (d m y : String),
      containsSub (toL "date") (pyLower (pyStrip e.text).toList) = false →
      searchD1 (pyStrip e.text).toList = some (d, m, y) →
      (12 < digitsToNat d.toList ∧ digitsToNat d.toList ≤ 31 ∧
          digitsToNat m.toList ≤ 12 →
        extract_date_enhanced [e] = zfill2 m ++ "/" ++ zfill2 d ++ "/" ++ y) ∧
      (¬(12 < digitsToNat d.toList ∧ digitsToNat d.toList ≤ 31 ∧
          digitsToNat m.toList ≤ 12) →
        extract_date_enhanced [e] = zfill2 d ++ "/" ++ zfill2 m ++ "/" ++ y)) ∧
    (∀ (c : ℚ) (n v : String),
      extract_date_enhanced [⟨"Date: 13/3/2024", n, c, v⟩] = "03/13/2024" ∧
      extract_date_enhanced [⟨"13/3/2024", n, c, v⟩] = "03/13/2024" ∧
      extract_date_enhanced [⟨"Date: 13/14/2024", n, c, v⟩] = "14/13/2024" ∧
      extract_date_enhanced [⟨"13/14/2024", n, c, v⟩] = "13/14/2024") := by
  refine ⟨?_, ?_, ?_⟩
  · intro e d m y rest hlab hfind
    simp only [String.toList] at hlab hfind
    constructor
    · rintro ⟨h1, h2⟩
      simp only [String.toList] at h1 h2
      have hl1 : dateLoop1 [e] =
          some (zfill2 m ++ "/" ++ zfill2 d ++ "/" ++ y) := by
        simp [dateLoop1, List.findSome?_cons, hlab, hfind, h1, h2]
      simp [extract_date_enhanced, hl1]
    · intro hn
      simp only [String.toList] at hn
      have hl1 : dateLoop1 [e] = none := by
        rcases not_and_or.mp hn with h | h <;>
          simp [dateLoop1, List.findSome?_cons, hlab, hfind, h]
      have hsearch := findallD1_head _ _ _ hfind
      have hl2 : dateLoop2 [e] = some (directDateFormat d m y) := by
        simp [dateLoop2, List.findSome?_cons, hsearch]
      have hdf : directDateFormat d m y =
          zfill2 d ++ "/" ++ zfill2 m ++ "/" ++ y := by
        rcases not_and_or.mp hn with h | h <;> simp [directDateFormat, h]
      rw [hdf] at hl2
      simp [extract_date_enhanced, hl1, hl2]
  · intro e d m y hlab hsearch
    simp only [String.toList] at hlab hsearch
    have hl1 : dateLoop1 [e] = none := by
      simp [dateLoop1, List.findSome?_cons, hlab]
    have hl2 : dateLoop2 [e] = some (directDateFormat d m y) := by
      simp [dateLoop2, List.findSome?_cons, hsearch]
    constructor
    · rintro ⟨h1, h2, h3⟩
      simp only [String.toList] at h1 h2 h3
      have hdf : directDateFormat d m y =
          zfill2 m ++ "/" ++ zfill2 d ++ "/" ++ y := by
        simp [directDateFormat, h1, h2, h3]
      rw [hdf] at hl2
      simp [extract_date_enhanced, hl1, hl2]
    · intro hn
      simp only [String.toList] at hn
      have hdf : directDateFormat d m y =
          zfill2 d ++ "/" ++ zfill2 m ++ "/" ++ y := by
        rcases not_and_or.mp hn with h | h
        · simp [directDateFormat, h]
        · rcases not_and_or.mp h with h2 | h2 <;> simp [directDateFormat, h2]
      rw [hdf] at hl2
      simp [extract_date_enhanced, hl1, hl2]
  · intro c n v
    exact ⟨rfl, rfl, rfl, rfl⟩

/-- Claim C3 counterexample: for the lone detection "2024" the amount
extractor does return 2024 — the candidate filter rejects it, but the
plain-number fallback (any bare integer strictly between 0 and 10000)
selects it. -/
theorem claim_C3_counterexample :
    extract_amount_enhanced [⟨"2024", "", 9/10, "v"⟩] =
      AmountValue.mk 2024 "UNKNOWN" := by
  decide

/-- Claim C3 amended: for a lone detection "2024" no amount candidate is
produced (the year filter rejects the value 2024, whatever the confidence
and variant), but the last-resort plain-number fallback then returns 2024
with currency UNKNOWN, so 2024 is selected as the returned amount after
all. -/
theorem claim_C3_amended :
    (∀ (c : ℚ) (n v : String), amountCandidates [⟨"2024", n, c, v⟩] = []) ∧
    extract_amount_enhanced [⟨"2024", "", 9/10, "v"⟩] =
      AmountValue.mk 2024 "UNKNOWN" :=
  ⟨fun _ _ _ => rfl, by decide⟩

/-- If every line is purely numeric, the last-resort title pass finds
nothing. -/
theorem lastResortTitle_eq_none (l : List NormEntry)
    (hdig : ∀ e ∈ l, pyIsDigitStr (pyStrip e.text).toList = true) :
    lastResortTitle l = none := by
  induction l with
  | nil => rfl
  | cons e es ih =>
    have he := hdig e (List.mem_cons_self _ _)
    simp only [lastResortTitle, List.findSome?_cons] at ih ⊢
    rw [he]
    simp only [Bool.not_true, Bool.and_false, if_neg (by simp : ¬False)]
    · exact ih (fun x hx => hdig x (List.mem_cons_of_mem _ hx))

def entriesC6 : List NormEntry :=
  [⟨"DOMINO'S PIZZA", "", 95/100, "a"⟩, ⟨"Merchant: Walmart", "", 9/10, "b"⟩]

/-- Claim C6 counterexample: the ranked list ["DOMINO'S PIZZA",
"Merchant: Walmart"] contains a line matching the explicit label pattern
(it captures "Walmart"), yet the returned title is "DOMINO'S PIZZA", which
no label-anchored match produced (the first line matches the
likely-company-name pattern of the same first pass and wins by rank). -/
theorem claim_C6_counterexample :
    extract_title_enhanced entriesC6 = "DOMINO'S PIZZA" ∧
    pySearch titleLabelAt ((pyStrip "Merchant: Walmart").toList) = some "Walmart" ∧
    pySearch titleLabelAt ((pyStrip "DOMINO'S PIZZA").toList) = none ∧
    "DOMINO'S PIZZA" ≠ "Walmart" := by
  decide

/-- Claim C6 amended: the first pass applies all three title patterns (the
explicit-label pattern, the likely-company-name pattern and the
proper-noun pattern, all searched case-insensitively) to each line in
ranked order and returns the first accepted match, so a non-label match on
an earlier-ranked line takes precedence over a label-anchored match on a
later line; the candidate-collection tier runs only when that combined
first pass found nothing.  The last conjunct exercises the
case-insensitive proper-noun pattern: the all-caps line "RECEIPT HEADER"
is rejected by the likely-company-name pattern (its lookahead bars a
"receipt" prefix) but accepted by the proper-noun pattern under
`re.IGNORECASE`. -/
theorem claim_C6_amended :
    (∀ (l : List NormEntry) (t : String),
      firstPassTitle l = some t → extract_title_enhanced l = t) ∧
    (∀ (l : List NormEntry),
      firstPassTitle l = none →
      ∀ c cs, pySortByKeyDesc (fun c => c.score) (merchantCandidates l) = c :: cs →
      extract_title_enhanced l = c.text) ∧
    extract_title_enhanced entriesC6 = "DOMINO'S PIZZA" ∧
    titlePat2 (toL "RECEIPT HEADER") = none ∧
    titlePat3 (toL "RECEIPT HEADER") = some "RECEIPT HEADER" ∧
    extract_title_enhanced [⟨"RECEIPT HEADER", "", 9/10, "v"⟩] =
      "RECEIPT HEADER" := by
  refine ⟨?_, ?_, by decide, by decide, by decide, by decide⟩
  · intro l t h
    unfold extract_title_enhanced
    rw [h]
  · intro l h c cs hc
    unfold extract_title_enhanced
    rw [h, hc]

/-- Claim C7 counterexample: the title field of the output record can be
the empty string — for the detection "Vendor: Name" the label-anchored
match captures "Name", and the label-remnant cleanup then erases it
entirely, which the single-short-word guard does not catch (it requires
word count exactly one, and the empty string has zero words). -/
theorem claim_C7_counterexample :
    (extract_receipt_data [⟨"Vendor: Name", 9/10, "v"⟩]).title = "" := by
  decide

/-- Claim C7 amended: for every entry list in which no title heuristic
matches (the first pass returns nothing and the candidate collection is
empty) and every line is purely numeric, the returned title is exactly
"Untitled Receipt".  The claim's further consequence that the title is
never the empty string is dropped: it is false (see the counterexample). -/
theorem claim_C7_amended : ∀ (l : List NormEntry),
    (∀ e ∈ l, pyIsDigitStr (pyStrip e.text).toList = true) →
    firstPassTitle l = none →
    merchantCandidates l = [] →
    extract_title_enhanced l = "Untitled Receipt" := by
  intro l hdig h1 h2
  unfold extract_title_enhanced
  rw [h1, h2, lastResortTitle_eq_none l hdig]
  rfl

/-- Witness for the amended C7 at the concrete all-numeric list ["12"]. -/
theorem claim_C7_amended_witness :
    extract_title_enhanced [⟨"12", "", 1/2, "v"⟩] = "Untitled Receipt" :=
  claim_C7_amended [⟨"12", "", 1/2, "v"⟩] (by decide) (by decide) (by decide)

/-- The duplicate merge never alters the amount or the currency of any
stored candidate, and appends the new candidate only when no stored
amount is within 0.01 of it. -/
theorem mergeCandidate_amounts (cands : List AmountCandidate)
    (nc : AmountCandidate) :
    (mergeCandidate cands nc).map (fun c => (c.amount, c.currency)) =
      (if cands.any (fun c => decide (|c.amount - nc.amount| < 1/100))
       then cands.map (fun c => (c.amount, c.currency))
       else cands.map (fun c => (c.amount, c.currency)) ++
         [(nc.amount, nc.currency)]) := by
  induction cands with
  | nil => simp [mergeCandidate]
  | cons c rest ih =>
    by_cases h : |c.amount - nc.amount| < 1/100
    · simp only [mergeCandidate, if_pos h, List.any_cons, List.map_cons,
        decide_eq_true h, Bool.true_or, if_pos]
      by_cases hb : nc.confidence > c.confidence <;> simp [hb]
    · simp only [mergeCandidate, if_neg h, List.any_cons, List.map_cons,
        decide_eq_false h, Bool.false_or, ih]
      split <;> rfl

def entriesC10 : List NormEntry :=
  [⟨"cost: 92", "", 9/10, "a"⟩, ⟨"price: $92", "", 8/10, "b"⟩]

/-- Claim C10: in the duplicate merge, a new match within 0.01 of a stored
candidate overwrites only that candidate's confidence and source text
(when its score is higher); its amount and currency are left unchanged —
the first conjunct states the frame property for every merge step.  For
the input ["cost: 92", "price: $92"] this is observable: the single
candidate keeps the currency UNKNOWN resolved from the first-seen
match on "cost: 92" while its score (1.0) and source text come from the
later, higher-scoring "$"-match on "price: $92", and the extractor returns
{92.0, "UNKNOWN"}. -/
theorem claim_C10 :
    (∀ (cands : List AmountCandidate) (nc : AmountCandidate),
      (mergeCandidate cands nc).map (fun c => (c.amount, c.currency)) =
        (if cands.any (fun c => decide (|c.amount - nc.amount| < 1/100))
         then cands.map (fun c => (c.amount, c.currency))
         else cands.map (fun c => (c.amount, c.currency)) ++
           [(nc.amount, nc.currency)])) ∧
    amountCandidates entriesC10 =
      [AmountCandidate.mk 92 "UNKNOWN" "price: $92" 1] ∧
    extract_amount_enhanced entriesC10 = AmountValue.mk 92 "UNKNOWN" :=
  ⟨mergeCandidate_amounts, by decide, by decide⟩

/-! ## Properties of the stable sort -/

theorem withIdx_map_snd {α : Type} (n : Nat) (l : List α) :
    (withIdx n l).map Prod.snd = l := by
  induction l generalizing n with
  | nil => rfl
  | cons x xs ih => simp [withIdx, ih]

theorem withIdx_fst_ge {α : Type} (n : Nat) (l : List α) :
    ∀ p ∈ withIdx n l, n ≤ p.1 := by
  induction l generalizing n with
  | nil => simp [withIdx]
  | cons x xs ih =>
    intro p hp
    simp only [withIdx, List.mem_cons] at hp
    rcases hp with rfl | hp
    · exact le_refl n
    · exact (Nat.le_succ n).trans (ih (n + 1) p hp)

theorem withIdx_fst_lt {α : Type} (n : Nat) (l : List α) :
    (withIdx n l).Pairwise (fun p q => p.1 < q.1) := by
  induction l generalizing n with
  | nil => exact List.Pairwise.nil
  | cons x xs ih =>
    simp only [withIdx, List.pairwise_cons]
    exact ⟨fun p hp => Nat.lt_of_lt_of_le (Nat.lt_succ_self n)
      (withIdx_fst_ge (n + 1) xs p hp), ih (n + 1)⟩

theorem pySort_perm {α : Type} (key : α → ℚ) (l : List α) :
    List.Perm (pySortByKeyDesc key l) l := by
  have h := (List.perm_insertionSort (keyDescRel key) (withIdx 0 l)).map Prod.snd
  rwa [withIdx_map_snd] at h

/-- The sorted list is pairwise descending in the key. -/
theorem pySort_pairwise_key {α : Type} (key : α → ℚ) (l : List α) :
    (pySortByKeyDesc key l).Pairwise (fun a b => key b ≤ key a) := by
  have h := List.sorted_insertionSort (keyDescRel key) (withIdx 0 l)
  unfold pySortByKeyDesc
  rw [List.pairwise_map]
  refine h.imp ?_
  intro p q hpq
  rcases hpq with h1 | ⟨h1, _⟩
  · exact le_of_lt h1
  · exact le_of_eq h1.symm

/-- Stability: filtering the sorted list to one key class recovers that
class in original input order. -/
theorem pySort_filter_key {α : Type} (key : α → ℚ) (l : List α) (c : ℚ) :
    (pySortByKeyDesc key l).filter (fun a => decide (key a = c)) =
      l.filter (fun a => decide (key a = c)) := by
  classical
  set L := withIdx 0 l with hL
  set S := List.insertionSort (keyDescRel key) L with hS
  have hperm : List.Perm S L := List.perm_insertionSort _ _
  have hq : ∀ (M : List (Nat × α)),
      (M.map Prod.snd).filter (fun a => decide (key a = c)) =
        (M.filter (fun p => decide (key p.2 = c))).map Prod.snd := by
    intro M
    induction M with
    | nil => rfl
    | cons p ps ih =>
      by_cases hp : key p.2 = c
      · simp [List.filter_cons, hp, ih]
      · simp [List.filter_cons, hp, ih]
  have hSsnd : pySortByKeyDesc key l = S.map Prod.snd := rfl
  have hLsnd : l = L.map Prod.snd := (withIdx_map_snd 0 l).symm
  rw [hSsnd, hq S]
  conv_rhs => rw [hLsnd]
  rw [hq L]
  congr 1
  -- the filtered pair lists are permutations of each other and both are
  -- sorted strictly by index, hence equal
  have hpf : List.Perm (S.filter (fun p => decide (key p.2 = c)))
      (L.filter (fun p => decide (key p.2 = c))) := hperm.filter _
  have hLlt : L.Pairwise (fun p q => p.1 < q.1) := withIdx_fst_lt 0 l
  have hsorted2 : (L.filter (fun p => decide (key p.2 = c))).Pairwise
      (fun p q => p.1 < q.1) := hLlt.sublist (List.filter_sublist L)
  have hLnodup : (L.map Prod.fst).Nodup := by
    have h2 : (L.map Prod.fst).Pairwise (fun a b => a ≠ b) := by
      rw [List.pairwise_map]
      exact hLlt.imp Nat.ne_of_lt
    exact h2
  have hSnodup : (S.map Prod.fst).Nodup :=
    ((hperm.map Prod.fst).nodup_iff).mpr hLnodup
  have hSkey : S.Pairwise (keyDescRel key) :=
    List.sorted_insertionSort (keyDescRel key) L
  have hfk : (S.filter (fun p => decide (key p.2 = c))).Pairwise (keyDescRel key) :=
    hSkey.sublist (List.filter_sublist S)
  have hfne : (S.filter (fun p => decide (key p.2 = c))).Pairwise
      (fun p q => p.1 ≠ q.1) := by
    have hnd : ((S.filter (fun p => decide (key p.2 = c))).map Prod.fst).Pairwise
        (fun a b => a ≠ b) :=
      hSnodup.sublist ((List.filter_sublist S).map Prod.fst)
    rw [List.pairwise_map] at hnd
    exact hnd
  have hsorted1 : (S.filter (fun p => decide (key p.2 = c))).Pairwise
      (fun p q => p.1 < q.1) := by
    refine ((hfk.and hfne).imp_of_mem ?_)
    intro x y hx hy hxy
    rw [List.mem_filter] at hx hy
    have hxc : key x.2 = c := of_decide_eq_true hx.2
    have hyc : key y.2 = c := of_decide_eq_true hy.2
    rcases hxy.1 with h1 | ⟨_, h2⟩
    · exact absurd (hyc.trans hxc.symm) (ne_of_lt h1)
    · exact lt_of_le_of_ne h2 hxy.2
  haveI : IsAntisymm (Nat × α) (fun p q => p.1 < q.1) :=
    ⟨fun a b h1 h2 => absurd h2 (Nat.lt_asymm h1)⟩
  exact List.eq_of_perm_of_sorted hpf hsorted1 hsorted2

/-! ## Properties of the deduplication -/

theorem dedupBy_sublist {α : Type} (f : α → String) :
    ∀ (seen : List String) (l : List α), List.Sublist (dedupBy f seen l) l := by
  intro seen l
  induction l generalizing seen with
  | nil => exact List.Sublist.refl _
  | cons x xs ih =>
    simp only [dedupBy]
    by_cases h : f x ∈ seen
    · rw [if_pos h]
      exact (ih seen).cons x
    · rw [if_neg h]
      exact (ih (f x :: seen)).cons₂ x

theorem dedupBy_not_seen {α : Type} (f : α → String) :
    ∀ (seen : List String) (l : List α) (x : α),
      x ∈ dedupBy f seen l → f x ∉ seen := by
  intro seen l
  induction l generalizing seen with
  | nil => intro x hx; exact absurd hx (List.not_mem_nil x)
  | cons y ys ih =>
    intro x hx
    simp only [dedupBy] at hx
    by_cases h : f y ∈ seen
    · rw [if_pos h] at hx
      exact ih seen x hx
    · rw [if_neg h] at hx
      rcases List.mem_cons.mp hx with rfl | hx2
      · exact h
      · intro hc
        exact ih (f y :: seen) x hx2 (List.mem_cons_of_mem _ hc)

theorem dedupBy_pairwise_ne {α : Type} (f : α → String) :
    ∀ (seen : List String) (l : List α),
      (dedupBy f seen l).Pairwise (fun a b => f a ≠ f b) := by
  intro seen l
  induction l generalizing seen with
  | nil => exact List.Pairwise.nil
  | cons y ys ih =>
    simp only [dedupBy]
    by_cases h : f y ∈ seen
    · rw [if_pos h]; exact ih seen
    · rw [if_neg h]
      refine List.pairwise_cons.mpr ⟨?_, ih (f y :: seen)⟩
      intro b hb
      have hb2 := dedupBy_not_seen f (f y :: seen) ys b hb
      intro he
      exact hb2 (by rw [← he]; exact List.mem_cons_self _ _)

/-- On a list sorted by descending key, each kept entry has the maximal key
among the entries sharing its dedup key (unless that dedup key was already
seen). -/
theorem dedupBy_max_key {α : Type} (f : α → String) (key : α → ℚ) :
    ∀ (seen : List String) (l : List α),
      l.Pairwise (fun a b => key b ≤ key a) →
      ∀ x ∈ dedupBy f seen l, ∀ y ∈ l, f y = f x →
        key y ≤ key x ∨ f y ∈ seen := by
  intro seen l
  induction l generalizing seen with
  | nil => intro _ x hx; exact absurd hx (List.not_mem_nil x)
  | cons z zs ih =>
    intro hp x hx y hy hfy
    have hp1 := (List.pairwise_cons.mp hp).1
    have hp2 := (List.pairwise_cons.mp hp).2
    simp only [dedupBy] at hx
    by_cases h : f z ∈ seen
    · rw [if_pos h] at hx
      rcases List.mem_cons.mp hy with rfl | hy2
      · exact Or.inr (hfy ▸ h)
      · exact ih seen hp2 x hx y hy2 hfy
    · rw [if_neg h] at hx
      rcases List.mem_cons.mp hx with rfl | hx2
      · rcases List.mem_cons.mp hy with rfl | hy2
        · exact Or.inl (le_refl _)
        · exact Or.inl (hp1 y hy2)
      · rcases List.mem_cons.mp hy with rfl | hy2
        · exfalso
          exact dedupBy_not_seen f (f y :: seen) zs x hx2
            (by rw [← hfy]; exact List.mem_cons_self _ _)
        · rcases ih (f z :: seen) hp2 x hx2 y hy2 hfy with h1 | h1
          · exact Or.inl h1
          · rcases List.mem_cons.mp h1 with h2 | h2
            · exfalso
              exact dedupBy_not_seen f (f z :: seen) zs x hx2
                (by rw [← hfy, h2]; exact List.mem_cons_self _ _)
            · exact Or.inr h2

/-- Claim C8: for every input, the raw_text sequence has no two entries
with identical exact text; each retained entry carries the highest
confidence among the surviving detections with that exact text; and the
retained entries are ordered by descending confidence with ties broken by
first-seen input order (each confidence class keeps its input order, stated
as a sublist of the filtered surviving input). -/
theorem claim_C8 : ∀ (input : List Detection),
    (extract_receipt_data input).raw_text =
      (dedupEntries (rankedEntries input)).map (fun e => e.text) ∧
    (extract_receipt_data input).raw_text.Pairwise (fun a b => a ≠ b) ∧
    (∀ e ∈ dedupEntries (rankedEntries input), ∀ d ∈ buildNormalized input,
      d.text = e.text → d.confidence ≤ e.confidence) ∧
    (dedupEntries (rankedEntries input)).Pairwise
      (fun a b => b.confidence ≤ a.confidence) ∧
    (∀ c : ℚ, List.Sublist
      ((dedupEntries (rankedEntries input)).filter
        (fun e => decide (e.confidence = c)))
      ((buildNormalized input).filter
        (fun e => decide (e.confidence = c)))) := by
  intro input
  have hraw : (extract_receipt_data input).raw_text =
      (dedupEntries (rankedEntries input)).map (fun e => e.text) := rfl
  have hpw : (rankedEntries input).Pairwise
      (fun a b => b.confidence ≤ a.confidence) :=
    pySort_pairwise_key (fun e => e.confidence) (buildNormalized input)
  have hsub : List.Sublist (dedupEntries (rankedEntries input))
      (rankedEntries input) := by
    unfold dedupEntries
    exact dedupBy_sublist (fun e => e.text) [] (rankedEntries input)
  refine ⟨hraw, ?_, ?_, ?_, ?_⟩
  · rw [hraw, List.pairwise_map]
    exact dedupBy_pairwise_ne (fun e => e.text) [] (rankedEntries input)
  · intro e he d hd hde
    have hperm2 : List.Perm (pySortByKeyDesc (fun e => e.confidence)
        (buildNormalized input)) (buildNormalized input) :=
      pySort_perm (fun e => e.confidence) (buildNormalized input)
    have hd2 : d ∈ rankedEntries input := hperm2.mem_iff.mpr hd
    have he2 : e ∈ dedupBy (fun e => e.text) [] (rankedEntries input) := he
    rcases dedupBy_max_key (fun e => e.text) (fun e => e.confidence) []
        (rankedEntries input) hpw e he2 d hd2 hde with h | h
    · exact h
    · exact absurd h (List.not_mem_nil _)
  · exact hpw.sublist hsub
  · intro c
    have h1 := hsub.filter (fun e => decide (e.confidence = c))
    have h2 : (rankedEntries input).filter (fun e => decide (e.confidence = c)) =
        (buildNormalized input).filter (fun e => decide (e.confidence = c)) :=
      pySort_filter_key (fun e => e.confidence) (buildNormalized input) c
    rw [h2] at h1
    exact h1

/-! ## Invariants of the amount-candidate accumulation -/

theorem pyFloatQ_nonneg (s : List Char) (v : ℚ) (h : pyFloatQ s = some v) :
    0 ≤ v := by
  unfold pyFloatQ at h
  simp only at h
  split at h
  · split at h
    · exact absurd h (by simp)
    · have hv := Option.some.inj h
      rw [← hv]
      positivity
  · split at h
    · have hv := Option.some.inj h
      rw [← hv]
      positivity
    · exact absurd h (by simp)
  · exact absurd h (by simp)

theorem mergeCandidate_mem_amount :
    ∀ (cands : List AmountCandidate) (nc x : AmountCandidate),
      x ∈ mergeCandidate cands nc →
      x.amount ∈ cands.map (fun c => c.amount) ∨ x.amount = nc.amount := by
  intro cands nc
  induction cands with
  | nil =>
    intro x hx
    rw [List.mem_singleton.mp hx]
    exact Or.inr rfl
  | cons c rest ih =>
    intro x hx
    simp only [mergeCandidate] at hx
    by_cases h : |c.amount - nc.amount| < 1/100
    · rw [if_pos h] at hx
      rcases List.mem_cons.mp hx with h2 | h2
      · left
        rw [h2]
        by_cases hb : nc.confidence > c.confidence
        · rw [if_pos hb]
          exact List.mem_cons_self _ _
        · rw [if_neg hb]
          exact List.mem_cons_self _ _
      · exact Or.inl (List.mem_cons_of_mem _ (List.mem_map_of_mem _ h2))
    · rw [if_neg h] at hx
      rcases List.mem_cons.mp hx with h2 | h2
      · exact Or.inl (h2 ▸ List.mem_cons_self _ _)
      · rcases ih x h2 with h3 | h3
        · exact Or.inl (List.mem_cons_of_mem _ h3)
        · exact Or.inr h3

/-- Every candidate the handler of one match leaves in the list either
keeps the amount of an already-stored candidate or carries a value that
passed the two filters (and is non-negative, being parsed from digits). -/
theorem processMatch_mem_amount (t : String) (tl : List Char) (sc : ℚ)
    (gs : List (Option String)) (cands : List AmountCandidate)
    (x : AmountCandidate) (hx : x ∈ processMatch t tl sc gs cands) :
    x.amount ∈ cands.map (fun c => c.amount) ∨
      (0 ≤ x.amount ∧ ¬(1900 ≤ x.amount ∧ x.amount ≤ 2100 ∧ x.amount.den = 1) ∧
        (1 ≤ x.amount ∨ containsAnySub kw4 tl = true)) := by
  unfold processMatch at hx
  split at hx
  · exact Or.inl (List.mem_map_of_mem _ hx)
  · rename_i amountStr curInd heq
    split at hx
    · exact Or.inl (List.mem_map_of_mem _ hx)
    · split at hx
      · exact Or.inl (List.mem_map_of_mem _ hx)
      · rename_i v hv
        split at hx
        · exact Or.inl (List.mem_map_of_mem _ hx)
        · split at hx
          · exact Or.inl (List.mem_map_of_mem _ hx)
          · rename_i hyear hsmall
            rcases mergeCandidate_mem_amount cands _ x hx with h | h
            · exact Or.inl h
            · right
              simp only at h
              rw [h]
              refine ⟨pyFloatQ_nonneg _ v hv, hyear, ?_⟩
              by_cases h1 : (1 : ℚ) ≤ v
              · exact Or.inl h1
              · rcases not_and_or.mp hsmall with h2 | h2
                · exact absurd (lt_of_not_le h1) h2
                · exact Or.inr (by
                    rcases not_not.mp h2 with h3
                    exact h3)

/-- Generic preservation through `foldl`: a candidate in the result either
keeps an amount present in the accumulator or satisfies the per-element
property of one processed element. -/
theorem foldl_amount_inv {β : Type}
    (step : List AmountCandidate → β → List AmountCandidate)
    (Q : β → ℚ → Prop)
    (hstep : ∀ cs b x, x ∈ step cs b →
      x.amount ∈ cs.map (fun c => c.amount) ∨ Q b x.amount) :
    ∀ (bs : List β) (cs : List AmountCandidate) (x : AmountCandidate),
      x ∈ bs.foldl step cs →
      x.amount ∈ cs.map (fun c => c.amount) ∨ ∃ b ∈ bs, Q b x.amount := by
  intro bs
  induction bs with
  | nil =>
    intro cs x hx
    exact Or.inl (List.mem_map_of_mem _ hx)
  | cons b bs2 ih =>
    intro cs x hx
    simp only [List.foldl_cons] at hx
    rcases ih (step cs b) x hx with h | ⟨b2, hb2, hq⟩
    · rcases List.mem_map.mp h with ⟨y, hy, hyx⟩
      rcases hstep cs b y hy with h2 | h2
      · exact Or.inl (hyx ▸ h2)
      · exact Or.inr ⟨b, List.mem_cons_self _ _, hyx ▸ h2⟩
    · exact Or.inr ⟨b2, List.mem_cons_of_mem _ hb2, hq⟩

/-- The candidate soundness invariant of the standard extraction loop. -/
theorem standardCandidates_mem_amount (init : List AmountCandidate)
    (l : List NormEntry) (x : AmountCandidate)
    (hx : x ∈ standardCandidates init l) :
    x.amount ∈ init.map (fun c => c.amount) ∨
      ∃ e ∈ l, (0 ≤ x.amount ∧
        ¬(1900 ≤ x.amount ∧ x.amount ≤ 2100 ∧ x.amount.den = 1) ∧
        (1 ≤ x.amount ∨
          containsAnySub kw4 (pyLower (pyStrip e.text).toList) = true)) := by
  unfold standardCandidates at hx
  refine foldl_amount_inv processEntry
    (fun e v => 0 ≤ v ∧ ¬(1900 ≤ v ∧ v ≤ 2100 ∧ v.den = 1) ∧
      (1 ≤ v ∨ containsAnySub kw4 (pyLower (pyStrip e.text).toList) = true))
    ?_ l init x hx
  intro cs e y hy
  unfold processEntry at hy
  simp only at hy
  have h2 := foldl_amount_inv
    (processPattern (pyStrip e.text) (pyLower (pyStrip e.text).toList))
    (fun _ v => 0 ≤ v ∧ ¬(1900 ≤ v ∧ v ≤ 2100 ∧ v.den = 1) ∧
      (1 ≤ v ∨ containsAnySub kw4 (pyLower (pyStrip e.text).toList) = true))
    ?_ currencyPatterns cs y hy
  · rcases h2 with h3 | ⟨_, _, h3⟩
    · exact Or.inl h3
    · exact Or.inr h3
  · intro cs2 pm z hz
    unfold processPattern at hz
    have h4 := foldl_amount_inv
      (fun cs3 gs => processMatch (pyStrip e.text)
        (pyLower (pyStrip e.text).toList) pm.2 gs cs3)
      (fun _ v => 0 ≤ v ∧ ¬(1900 ≤ v ∧ v ≤ 2100 ∧ v.den = 1) ∧
        (1 ≤ v ∨ containsAnySub kw4 (pyLower (pyStrip e.text).toList) = true))
      ?_ (pyFinditer pm.1 (pyStrip e.text).toList) cs2 z hz
    · rcases h4 with h5 | ⟨_, _, h5⟩
      · exact Or.inl h5
      · exact Or.inr h5
    · intro cs3 gs w hw
      exact processMatch_mem_amount _ _ _ _ _ _ hw

theorem firstCheckStep_mem_amount (cs : List AmountCandidate) (e : NormEntry)
    (x : AmountCandidate) (hx : x ∈ firstCheckStep cs e) :
    x.amount ∈ cs.map (fun c => c.amount) ∨ 0 ≤ x.amount := by
  unfold firstCheckStep at hx
  simp only at hx
  split at hx
  · split at hx
    · split at hx
      · rename_i ds hds v hv
        rcases List.mem_append.mp hx with h | h
        · exact Or.inl (List.mem_map_of_mem _ h)
        · rw [List.mem_singleton.mp h]
          exact Or.inr (pyFloatQ_nonneg _ _ hv)
      · exact Or.inl (List.mem_map_of_mem _ hx)
    · exact Or.inl (List.mem_map_of_mem _ hx)
  · exact Or.inl (List.mem_map_of_mem _ hx)

theorem firstCheckCandidates_nonneg (l : List NormEntry) (x : AmountCandidate)
    (hx : x ∈ firstCheckCandidates l) : 0 ≤ x.amount := by
  unfold firstCheckCandidates at hx
  rcases foldl_amount_inv firstCheckStep (fun _ v => 0 ≤ v)
      (fun cs b y hy => firstCheckStep_mem_amount cs b y hy) l [] x hx with h | ⟨_, _, h⟩
  · simp at h
  · exact h

theorem amountCandidates_nonneg (l : List NormEntry) (x : AmountCandidate)
    (hx : x ∈ amountCandidates l) : 0 ≤ x.amount := by
  unfold amountCandidates at hx
  rcases standardCandidates_mem_amount _ _ _ hx with h | ⟨_, _, h, _⟩
  · rcases List.mem_map.mp h with ⟨y, hy, hyx⟩
    exact hyx ▸ firstCheckCandidates_nonneg l y hy
  · exact h

theorem extract_amount_nonneg (l : List NormEntry) :
    0 ≤ (extract_amount_enhanced l).value := by
  unfold extract_amount_enhanced
  split
  · rename_i y rest heq
    simp only
    have hmem : ∀ c, c ∈ pySortByKeyDesc (fun c => c.confidence) (y :: rest) →
        0 ≤ c.amount := by
      intro c hc
      have hc2 : c ∈ (y :: rest) :=
        (pySort_perm (fun c => c.confidence) (y :: rest)).mem_iff.mp hc
      exact amountCandidates_nonneg l c (heq ▸ hc2)
    split
    · rename_i c hc
      exact hmem c (List.mem_of_find?_eq_some hc)
    · split
      · rename_i c hc
        exact hmem c (List.mem_of_find?_eq_some hc)
      · split
        · rename_i c cs hc
          exact hmem c (hc ▸ List.mem_cons_self _ _)
        · exact le_refl 0
  · split
    · rename_i r heq2
      rcases List.exists_of_findSome?_eq_some heq2 with ⟨e, _, hfe⟩
      simp only at hfe
      split at hfe
      · split at hfe
        · rename_i v hv
          split at hfe
          · rename_i hrange
            rw [← Option.some.inj hfe]
            exact le_of_lt hrange.1
          · exact absurd hfe (by simp)
        · exact absurd hfe (by simp)
      · exact absurd hfe (by simp)
    · exact le_refl 0

/-- Claim C9: the extraction pipeline is total (the embedding returns a
record for every input, the source's `try/except` arms being the `Option`
fallbacks); the empty detection list and lists whose every text is blank
or shorter than two characters after stripping give the all-default record
(placeholder title, empty date, amount 0, currency UNKNOWN, no raw text);
and the amount of the returned record is never negative. -/
theorem claim_C9 :
    extract_receipt_data [] =
      ReceiptRecord.mk "Untitled Receipt" "" 0 "UNKNOWN" [] ∧
    (∀ l : List Detection, (∀ d ∈ l, (pyStrip d.text).length < 2) →
      extract_receipt_data l =
        ReceiptRecord.mk "Untitled Receipt" "" 0 "UNKNOWN" []) ∧
    (∀ l : List Detection, 0 ≤ (extract_receipt_data l).amount) := by
  refine ⟨by decide, ?_, ?_⟩
  · intro l h
    have hb : buildNormalized l = [] := by
      unfold buildNormalized
      rw [List.filterMap_eq_nil_iff]
      intro d hd
      simp only
      by_cases h0 : pyStrip d.text = ""
      · rw [if_pos h0]
      · rw [if_neg h0, if_pos (h d hd)]
    unfold extract_receipt_data dedupEntries rankedEntries
    rw [hb]
    rfl
  · intro l
    exact extract_amount_nonneg (dedupEntries (rankedEntries l))

/-- Witness for C9 at a list whose only text strips to one character. -/
theorem claim_C9_witness :
    extract_receipt_data [⟨" x ", 1/2, "v"⟩] =
      ReceiptRecord.mk "Untitled Receipt" "" 0 "UNKNOWN" [] :=
  claim_C9.2.1 [⟨" x ", 1/2, "v"⟩] (by decide)

/-- Modelled from the spec (claim C4): the claimed filtering rule — an
integer-valued candidate in [1900, 2100] is rejected unless its line
contains one of amount, total, sum, price, cost, fee; a value below 1 is
rejected unless the line contains one of those keywords. -/
def claimFilterSkips (v : ℚ) (tl : List Char) : Bool :=
  (decide (1900 ≤ v) && decide (v ≤ 2100) && decide (v.den = 1) &&
    !containsAnySub moneyLabels tl) ||
  (decide (v < 1) && !containsAnySub moneyLabels tl)

/-- Claim C4 counterexample: the code's year filter is unconditional — on
the line "total: 2000" the value 2000 is rejected (no candidate survives
and the extractor returns the default) although the line contains the
monetary keyword "total", while the claimed rule would keep it; and a
value below 1 on a "fee" line is rejected although the claimed keyword
set includes fee. -/
theorem claim_C4_counterexample :
    claimFilterSkips 2000 (toL "total: 2000") = false ∧
    containsAnySub moneyLabels (toL "total: 2000") = true ∧
    standardCandidates [] [⟨"total: 2000", "", 9/10, "v"⟩] = [] ∧
    extract_amount_enhanced [⟨"total: 2000", "", 9/10, "v"⟩] =
      AmountValue.mk 0 "UNKNOWN" ∧
    claimFilterSkips (1/2) (toL "fee: 0.50") = false ∧
    standardCandidates [] [⟨"fee: 0.50", "", 9/10, "v"⟩] = [] := by
  decide

/-- Claim C4 amended: the filtering step of the standard loop,
characterized on the candidate's own source line (`tl` is the lowered
stripped line the match came from): a parsed value that is integer-valued
in [1900, 2100] is rejected unconditionally — the monetary keywords do
not exempt it; a value below 1 is rejected unless that same line contains
one of amount, total, sum, price (cost and fee do not exempt it); every
other parsed value passes the filter and proceeds to currency resolution,
the confidence boosts and the duplicate merge.  Moreover no candidate the
loop produces (rather than inherits from the initial accumulator) is an
integer in [1900, 2100]. -/
theorem claim_C4_amended :
    (∀ (t : String) (tl : List Char) (score : ℚ) (gs : List (Option String))
      (cands : List AmountCandidate) (amountStr : String)
      (curInd : Option String) (v : ℚ),
      splitAmtCur gs = some (amountStr, curInd) →
      amountStr ≠ "" →
      pyFloatQ (cleanAmountStr amountStr.toList) = some v →
      (((1900 ≤ v ∧ v ≤ 2100 ∧ v.den = 1) ∨
          (v < 1 ∧ ¬containsAnySub kw4 tl = true)) →
        processMatch t tl score gs cands = cands) ∧
      ((¬(1900 ≤ v ∧ v ≤ 2100 ∧ v.den = 1) ∧
          (1 ≤ v ∨ containsAnySub kw4 tl = true)) →
        processMatch t tl score gs cands =
          mergeCandidate cands
            ⟨v, resolveCurrency tl curInd, t,
              score + (if containsSub (toL "total") tl then 1/10 else 0)
                + (if containsSub (toL "amount") tl then 1/10 else 0)
                + (if containsSub (toL "price") tl then 1/10 else 0)⟩)) ∧
    (∀ (init : List AmountCandidate) (l : List NormEntry)
      (x : AmountCandidate),
      x ∈ standardCandidates init l →
      x.amount ∉ init.map (fun c => c.amount) →
      ¬(1900 ≤ x.amount ∧ x.amount ≤ 2100 ∧ x.amount.den = 1)) := by
  constructor
  · intro t tl score gs cands amountStr curInd v hsplit hne hfloat
    constructor
    · intro hrej
      unfold processMatch
      simp only [hsplit]
      rw [if_neg hne]
      simp only [hfloat]
      rcases hrej with hy | hs
      · rw [if_pos hy]
      · have hy' : ¬(1900 ≤ v ∧ v ≤ 2100 ∧ v.den = 1) := by
          rintro ⟨ha, _, _⟩
          linarith [hs.1]
        rw [if_neg hy', if_pos hs]
    · rintro ⟨hy', hpass⟩
      unfold processMatch
      simp only [hsplit]
      rw [if_neg hne]
      simp only [hfloat]
      rw [if_neg hy']
      have hs' : ¬(v < 1 ∧ ¬containsAnySub kw4 tl = true) := by
        rintro ⟨hv1, hnkw⟩
        rcases hpass with h | h
        · linarith
        · exact hnkw h
      rw [if_neg hs']
  · intro init l x hx hni
    rcases standardCandidates_mem_amount init l x hx with h | ⟨e, _, _, hyear, _⟩
    · exact absurd h hni
    · exact hyear

/-- Witness for the amended C4: on the line "cost: 5" the parsed value 5
is no calendar year and not below 1, so the match passes the filter and
reaches the duplicate merge; on the line "total: 2000" the parsed value
2000 is rejected by the unconditional year filter although the line
carries the keyword "total". -/
theorem claim_C4_amended_witness :
    processMatch "cost: 5" (toL "cost: 5") (8/10) [some "5"] [] =
      mergeCandidate []
        ⟨5, resolveCurrency (toL "cost: 5") none, "cost: 5",
          8/10 + (if containsSub (toL "total") (toL "cost: 5") then 1/10 else 0)
            + (if containsSub (toL "amount") (toL "cost: 5") then 1/10 else 0)
            + (if containsSub (toL "price") (toL "cost: 5") then 1/10 else 0)⟩ ∧
    processMatch "total: 2000" (toL "total: 2000") (8/10) [some "2000"] [] =
      [] :=
  ⟨(claim_C4_amended.1 "cost: 5" (toL "cost: 5") (8/10) [some "5"] []
      "5" none 5 (by decide) (by decide) (by decide)).2
      ⟨by decide, Or.inl (by decide)⟩,
   (claim_C4_amended.1 "total: 2000" (toL "total: 2000") (8/10) [some "2000"] []
      "2000" none 2000 (by decide) (by decide) (by decide)).1
      (Or.inl (by decide))⟩

/-! ## Claim C5 -/

/-- Modelled from the spec (claim C5): the claim's OCR-confusion pattern
`amount[:]?\s*s\s*<digits>` (case-insensitive, searched anywhere in the
line): "amount", an optional colon directly after it, whitespace, the
letter s, whitespace, at least one digit.  The code's pattern
`amount\s*:?\s*s\s*\d+` additionally allows whitespace before the colon. -/
def specAmountSAt (s : List Char) : Option (List Char) := do
  let r0 ← matchLitCI (toL "amount") s
  sThenDigits (optColon r0)

/-- Modelled from the spec (claim C5): `re.search` of the claim's pattern. -/
def specAmountSBool (tl : List Char) : Bool :=
  (pySearch specAmountSAt tl).isSome

theorem dropWhile_idem (p : Char → Bool) (l : List Char) :
    (l.dropWhile p).dropWhile p = l.dropWhile p := by
  induction l with
  | nil => rfl
  | cons c cs ih =>
    by_cases h : p c
    · simp [List.dropWhile_cons, h, ih]
    · simp [List.dropWhile_cons, h]

theorem sThenDigits_dropWhile (u : List Char) :
    sThenDigits (u.dropWhile pySpace) = sThenDigits u := by
  unfold sThenDigits
  rw [dropWhile_idem]

theorem optColon_cons_ne (c : Char) (cs : List Char) (hc : c ≠ ':') :
    optColon (c :: cs) = c :: cs := by
  unfold optColon
  split
  · rename_i cs2 heq
    injection heq with h1 h2
    exact absurd h1 hc
  · rfl

/-- Wherever the claim's pattern matches, the code's pattern matches. -/
theorem specAmountSAt_imp (s : List Char) (h : (specAmountSAt s).isSome) :
    (amountSAt s).isSome := by
  unfold specAmountSAt at h
  unfold amountSAt
  cases hm : matchLitCI (toL "amount") s with
  | none =>
    rw [hm] at h
    have h1 : (none : Option (List Char)).isSome = true := h
    simp at h1
  | some r0 =>
    rw [hm] at h
    have h1 : (sThenDigits (optColon r0)).isSome = true := h
    show (sThenDigits (optColon (r0.dropWhile pySpace))).isSome = true
    clear h
    rcases r0 with _ | ⟨c, cs⟩
    · exact h1
    · by_cases hc : c = ':'
      · subst hc
        have hd : (':' :: cs).dropWhile pySpace = ':' :: cs := by
          rw [List.dropWhile_cons, if_neg (by decide)]
        rw [hd]
        exact h1
      · rw [optColon_cons_ne c cs hc] at h1
        have hu := h1
        unfold sThenDigits at hu
        split at hu
        · rename_i d ds hv
          by_cases hd : d = 's'
          · subst hd
            rw [hv, optColon_cons_ne 's' ds (by decide), ← hv,
              sThenDigits_dropWhile]
            exact h1
          · rw [if_neg hd] at hu
            simp at hu
        · simp at hu

theorem pySearch_mono {γ δ : Type} (m : List Char → Option γ)
    (m2 : List Char → Option δ)
    (himp : ∀ s, (m s).isSome → (m2 s).isSome) :
    ∀ tl, (pySearch m tl).isSome → (pySearch m2 tl).isSome := by
  intro tl
  induction tl with
  | nil => exact himp []
  | cons c cs ih =>
    intro h
    simp only [pySearch] at h ⊢
    cases h2 : m2 (c :: cs) with
    | some g2 => rfl
    | none =>
      cases hm : m (c :: cs) with
      | some g =>
        have h3 := himp (c :: cs) (by rw [hm]; rfl)
        rw [h2] at h3
        simp at h3
      | none =>
        rw [hm] at h
        exact ih h

theorem pySearch_exists {γ : Type} (m : List Char → Option γ) (tl : List Char)
    (g : γ) (h : pySearch m tl = some g) : ∃ s, m s = some g := by
  induction tl with
  | nil => exact ⟨[], h⟩
  | cons c cs ih =>
    simp only [pySearch] at h
    cases hm : m (c :: cs) with
    | some g2 =>
      rw [hm] at h
      exact ⟨c :: cs, hm.trans h⟩
    | none =>
      rw [hm] at h
      exact ih h

theorem amountSBool_of_spec (tl : List Char) (h : specAmountSBool tl = true) :
    amountSBool tl = true := by
  unfold specAmountSBool at h
  unfold amountSBool amountSCapture
  exact pySearch_mono specAmountSAt amountSAt specAmountSAt_imp tl h

/-- A successful match of the code's OCR-confusion pattern captures a
nonempty all-digit group. -/
theorem sThenDigits_digits (u ds : List Char) (h : sThenDigits u = some ds) :
    ds ≠ [] ∧ ds.all asciiDigit = true := by
  unfold sThenDigits at h
  split at h
  · rename_i c cs hv
    by_cases hc : c = 's'
    · rw [if_pos hc] at h
      simp only at h
      split at h
      · simp at h
      · rename_i hne
        injection h with h1
        subst h1
        constructor
        · intro hnil
          exact hne (by rw [hnil]; rfl)
        · exact List.all_eq_true.mpr (fun a ha => List.mem_takeWhile_imp ha)
    · rw [if_neg hc] at h
      simp at h
  · simp at h

theorem amountSAt_digits (s ds : List Char) (h : amountSAt s = some ds) :
    ds ≠ [] ∧ ds.all asciiDigit = true := by
  unfold amountSAt at h
  cases hm : matchLitCI (toL "amount") s with
  | none =>
    rw [hm] at h
    have h1 : (none : Option (List Char)) = some ds := h
    simp at h1
  | some r0 =>
    rw [hm] at h
    have h1 : sThenDigits (optColon (r0.dropWhile pySpace)) = some ds := h
    exact sThenDigits_digits _ _ h1

theorem takeWhile_all (p : Char → Bool) (l : List Char)
    (h : l.all p = true) : l.takeWhile p = l := by
  induction l with
  | nil => rfl
  | cons c cs ih =>
    simp only [List.all_cons, Bool.and_eq_true] at h
    simp [List.takeWhile_cons, h.1, ih h.2]

/-- `float()` on a nonempty all-digit string is the digits' value. -/
theorem pyFloatQ_digits (ds : List Char) (hne : ds ≠ [])
    (hall : ds.all asciiDigit = true) :
    pyFloatQ ds = some ((digitsToNat ds : ℚ)) := by
  have hie : ds.isEmpty = false := by
    cases ds with
    | nil => exact absurd rfl hne
    | cons c cs => rfl
  unfold pyFloatQ
  simp only [takeWhile_all asciiDigit ds hall, List.drop_length]
  simp [hie]

/-- A line matching the code's OCR-confusion pattern appends a 0.95-score
USD candidate for its stripped text. -/
theorem firstCheckStep_appends (cands : List AmountCandidate) (e : NormEntry)
    (h : amountSBool (pyLower (pyStrip e.text).toList) = true) :
    ∃ v, firstCheckStep cands e =
      cands ++ [⟨v, "USD", pyStrip e.text, 95/100⟩] := by
  have hsome : (amountSCapture (pyLower (pyStrip e.text).toList)).isSome = true := h
  cases hcap : amountSCapture (pyLower (pyStrip e.text).toList) with
  | none =>
    rw [hcap] at hsome
    simp at hsome
  | some ds =>
    obtain ⟨s, hs⟩ := pySearch_exists amountSAt _ ds hcap
    obtain ⟨hne, hall⟩ := amountSAt_digits s ds hs
    refine ⟨((digitsToNat ds : ℚ)), ?_⟩
    unfold firstCheckStep
    simp only [h, if_true, hcap, pyFloatQ_digits ds hne hall]

theorem foldl_firstCheckStep_mono (l : List NormEntry) :
    ∀ (acc : List AmountCandidate) (c : AmountCandidate), c ∈ acc →
      c ∈ l.foldl firstCheckStep acc := by
  induction l with
  | nil => intro acc c hc; exact hc
  | cons e es ih =>
    intro acc c hc
    simp only [List.foldl_cons]
    apply ih
    unfold firstCheckStep
    simp only
    split
    · split
      · split
        · exact List.mem_append_left _ hc
        · exact hc
      · exact hc
    · exact hc

theorem firstCheck_fold_exists (l : List NormEntry) (e : NormEntry)
    (h : amountSBool (pyLower (pyStrip e.text).toList) = true) :
    ∀ acc, e ∈ l → ∃ c ∈ l.foldl firstCheckStep acc,
      c.currency = "USD" ∧ c.confidence = 95/100 ∧ c.text = pyStrip e.text := by
  induction l with
  | nil =>
    intro acc he
    cases he
  | cons e0 es ih =>
    intro acc he
    simp only [List.foldl_cons]
    rcases List.mem_cons.mp he with heq | hmem
    · subst heq
      obtain ⟨v, hv⟩ := firstCheckStep_appends acc e h
      refine ⟨⟨v, "USD", pyStrip e.text, 95/100⟩, ?_, rfl, rfl, rfl⟩
      apply foldl_firstCheckStep_mono
      rw [hv]
      exact List.mem_append_right _ (List.mem_singleton_self _)
    · exact ih (firstCheckStep acc e0) hmem

/-- C5: every entry whose stripped, lowered text matches the claim's
OCR-confusion pattern `amount[:]?\s*s\s*<digits>` yields a candidate with
currency "USD" and score 0.95 carrying that entry's stripped text (the
code's pattern `amount\s*:?\s*s\s*\d+` accepts every match of the
claim's pattern); and the input line "Amount: S92" yields amount 92 with
currency "USD" from the full extractor. -/
theorem claim_C5 :
    (∀ (l : List NormEntry) (e : NormEntry), e ∈ l →
      specAmountSBool (pyLower (pyStrip e.text).toList) = true →
      ∃ c ∈ firstCheckCandidates l, c.currency = "USD" ∧
        c.confidence = 95/100 ∧ c.text = pyStrip e.text) ∧
    extract_amount_enhanced [⟨"Amount: S92", "amount s92", 9/10, "v"⟩] =
      AmountValue.mk 92 "USD" := by
  constructor
  · intro l e he hspec
    exact firstCheck_fold_exists l e (amountSBool_of_spec _ hspec) [] he
  · decide

/-- Witness for C5 at the single line "Amount: S92". -/
theorem claim_C5_witness :
    ∃ c ∈ firstCheckCandidates
        [(⟨"Amount: S92", "amount s92", 9/10, "v"⟩ : NormEntry)],
      c.currency = "USD" ∧ c.confidence = 95/100 ∧
      c.text = pyStrip "Amount: S92" :=
  claim_C5.1 [⟨"Amount: S92", "amount s92", 9/10, "v"⟩]
    ⟨"Amount: S92", "amount s92", 9/10, "v"⟩
    (List.mem_singleton_self _) (by decide)

end OCRApp
